import Mathlib

/-!
Verification development for the md-linear-sync repository.

This file contains a shallow embedding, in Lean, of the parts of the
source that the specification claims talk about:

* RetryManager (src/utils/RetryManager.ts): bounded retry wrapper with
  error classification;
* the sync daemon's webhook endpoint and file-move debouncing
  (src/cli/webhook.ts, the SyncDaemon class);
* the single-ticket and batch push/pull operations (src/cli/sync.ts);
* the ticket file codec (src/parsers/index.ts).

JavaScript strings are modelled by Lean String, JS array indexing that
can return undefined by Option, numeric timestamps (Date values compared
with < and >) by Int, and thrown exceptions by Except String.
-/

deriving instance DecidableEq for Except

/-! ## Generic string helpers (models of JS string primitives) -/

/-- Model of: does the character list s start with the character list p.
Used to model JS String.prototype operations character by character. -/
def listHasPre : List Char → List Char → Bool
  | [], _ => true
  | _ :: _, [] => false
  | a :: p2, b :: s2 => a == b && listHasPre p2 s2

/-- Model of JS String.prototype.includes: does p occur as a contiguous
substring of s (as character lists). -/
def listHasSub (p : List Char) : List Char → Bool
  | [] => p.isEmpty
  | c :: s2 => listHasPre p (c :: s2) || listHasSub p s2

/-- Model of JS message.includes(sub). -/
def strIncludes (m sub : String) : Bool :=
  listHasSub sub.data m.data

/-- Model of JS String.prototype.toLowerCase (ASCII case folding,
which is all the source ever feeds it). -/
def jsToLower (s : String) : String :=
  ⟨s.data.map Char.toLower⟩

/-- Model of JS String.prototype.startsWith. -/
def strStartsWith (s pre : String) : Bool :=
  listHasPre pre.data s.data

/-- Model of JS String.prototype.endsWith. -/
def strEndsWith (s suf : String) : Bool :=
  listHasPre suf.data.reverse s.data.reverse

/-! ## RetryManager (src/utils/RetryManager.ts) -/

namespace RetryManager

/-- RetryConfig from src/types: maxAttempts and the per-retry delay
table in milliseconds. -/
structure RetryConfig where
  maxAttempts : Nat
  delays : List Nat
  deriving Repr, DecidableEq

/-- DEFAULT_CONFIG from RetryManager: maxAttempts 3,
delays [0, 30000, 120000] (the source comment reads: immediate, 30s,
2min). -/
def DEFAULT_CONFIG : RetryConfig :=
  { maxAttempts := 3, delays := [0, 30000, 120000] }

/-- isRetryableError from RetryManager, as a function of the error
message: the source lowercases the message and tests substrings in
this exact order, returning true for network / rate limit / 5xx
matches, false for auth / validation / filesystem matches, and true
(conservative default) when nothing matches. -/
def isRetryableError (message0 : String) : Bool :=
  let message := jsToLower message0
  if strIncludes message "network" ||
     strIncludes message "timeout" ||
     strIncludes message "connection" ||
     strIncludes message "econnreset" ||
     strIncludes message "enotfound" then true
  else if strIncludes message "rate limit" ||
     strIncludes message "too many requests" ||
     strIncludes message "429" then true
  else if strIncludes message "500" ||
     strIncludes message "502" ||
     strIncludes message "503" ||
     strIncludes message "504" ||
     strIncludes message "internal server error" ||
     strIncludes message "bad gateway" ||
     strIncludes message "service unavailable" ||
     strIncludes message "gateway timeout" then true
  else if strIncludes message "unauthorized" ||
     strIncludes message "forbidden" ||
     strIncludes message "invalid api key" ||
     strIncludes message "401" ||
     strIncludes message "403" then false
  else if strIncludes message "validation" ||
     strIncludes message "invalid" ||
     strIncludes message "bad request" ||
     strIncludes message "400" then false
  else if strIncludes message "enoent" ||
     strIncludes message "permission denied" ||
     strIncludes message "eacces" then false
  else true

/-- Helper naming every substring the classifier looks at; an error
message matching none of these falls through every branch of
isRetryableError. -/
def classifierTokens : List String :=
  ["network", "timeout", "connection", "econnreset", "enotfound",
   "rate limit", "too many requests", "429",
   "500", "502", "503", "504", "internal server error", "bad gateway",
   "service unavailable", "gateway timeout",
   "unauthorized", "forbidden", "invalid api key", "401", "403",
   "validation", "invalid", "bad request", "400",
   "enoent", "permission denied", "eacces"]

/-- True when the lowercased message contains at least one of the
classifier's substrings, i.e. the message matches some classification
branch of isRetryableError. -/
def matchesAnyClass (message0 : String) : Bool :=
  classifierTokens.any (fun tok => strIncludes (jsToLower message0) tok)

/-- Model of the JS expression
delays[attempt - 1] || delays[delays.length - 1]
used by withRetry to pick the sleep before a retry: an out-of-range
index yields undefined (falsy) and the value 0 is also falsy, so both
fall back to the last table entry.  i is the JS index attempt - 1. -/
def delayForRetry (delays : List Nat) (i : Nat) : Nat :=
  let fallback := delays.getD (delays.length - 1) 0
  match delays.get? i with
  | some d => if d = 0 then fallback else d
  | none => fallback

/-- One observable execution of withRetry: the sleeps performed (in
order, milliseconds), the number of invocations of the operation, and
the final outcome.  The operation is modelled as a function from the
0-based attempt number to that attempt's result. -/
structure RetryRun (α : Type) where
  sleeps : List Nat
  calls : Nat
  outcome : Except String α
  deriving Repr

/-- The loop body of withRetry from RetryManager, starting at a given
attempt index with the remaining loop iterations as fuel (the source
loop runs for attempt = 0 .. maxAttempts - 1).  On each iteration: if
attempt > 0 first sleep delayForRetry; run the operation; a success
returns; a non-retryable error is rethrown at once; a retryable error
on the last attempt is rethrown; otherwise continue with the next
attempt. -/
def withRetryGo (op : Nat → Except String α) (cfg : RetryConfig) :
    Nat → Nat → RetryRun α
  | _, 0 => { sleeps := [], calls := 0, outcome := Except.error "" }
  | attempt, fuel + 1 =>
    let pre : List Nat :=
      if attempt > 0 then [delayForRetry cfg.delays (attempt - 1)] else []
    match op attempt with
    | Except.ok v => { sleeps := pre, calls := 1, outcome := Except.ok v }
    | Except.error e =>
      if isRetryableError e = false then
        { sleeps := pre, calls := 1, outcome := Except.error e }
      else if attempt = cfg.maxAttempts - 1 then
        { sleeps := pre, calls := 1, outcome := Except.error e }
      else
        let rest := withRetryGo op cfg (attempt + 1) fuel
        { sleeps := pre ++ rest.sleeps, calls := 1 + rest.calls,
          outcome := rest.outcome }

/-- withRetry from RetryManager (observable behaviour). -/
def withRetry (op : Nat → Except String α) (cfg : RetryConfig) : RetryRun α :=
  withRetryGo op cfg 0 cfg.maxAttempts

end RetryManager

/-! ## SyncDaemon webhook endpoint (src/cli/webhook.ts, startServer) -/

namespace Daemon

/-- The fields of the webhook request body that the POST /webhook
handler destructures: action, type, and the ticket identifier that
the handler reads from data.identifier or data.issue.identifier
(none models a body where neither is present). -/
structure WebhookBody where
  action : Option String
  btype : Option String
  ticketId : Option String
  deriving Repr, DecidableEq

/-- Observable behaviour of one POST /webhook request: the HTTP status
sent, the grace delay slept before the sync (2000ms for Comment
create events), and the retry run of the processing operation, when
any processing was started (syncTicket and handleTicketDeletion both
wrap their work in RetryManager.withRetry with the default config). -/
structure WebhookResult where
  status : Nat
  graceDelay : Nat
  processing : Option (RetryManager.RetryRun Unit)
  deriving Repr

/-- The POST /webhook handler from SyncDaemon.startServer.  syncOp and
deleteOp model the bodies of the closures passed to
RetryManager.withRetry by syncTicket and handleTicketDeletion (the
pull of the ticket resp. the local file removal, per attempt).  The
handler awaits the processing and sends 200 on success and 500 when
the awaited call throws; a body matching neither branch falls through
to the 200 response with no processing at all. -/
def webhookHandler (body : WebhookBody)
    (syncOp deleteOp : Nat → Except String Unit) : WebhookResult :=
  match body.ticketId with
  | some _ =>
    if body.action = some "update" || body.action = some "create" then
      let grace : Nat :=
        if body.action = some "create" && body.btype = some "Comment"
        then 2000 else 0
      let run := RetryManager.withRetry syncOp RetryManager.DEFAULT_CONFIG
      match run.outcome with
      | Except.ok _ => { status := 200, graceDelay := grace, processing := some run }
      | Except.error _ => { status := 500, graceDelay := grace, processing := some run }
    else if body.action = some "remove" then
      let run := RetryManager.withRetry deleteOp RetryManager.DEFAULT_CONFIG
      match run.outcome with
      | Except.ok _ => { status := 200, graceDelay := 0, processing := some run }
      | Except.error _ => { status := 500, graceDelay := 0, processing := some run }
    else { status := 200, graceDelay := 0, processing := none }
  | none => { status := 200, graceDelay := 0, processing := none }

/-! ## SyncDaemon.handleFileMove debouncing (src/cli/webhook.ts) -/

/-- A raw watcher event as fed to handleFileMove, already reduced to
the debounce key (the ticket id extracted from the filename by the
regex) and the event kind: added is true for a chokidar add event and
false for an unlink event.  time is the arrival instant in
milliseconds; the list order is the arrival order. -/
structure FileEvent where
  time : Nat
  key : String
  added : Bool
  deriving Repr, DecidableEq

/-- The debounce window of handleFileMove: setTimeout(..., 2000). -/
def debounceWindow : Nat := 2000

/-- Model of the setTimeout / clearTimeout discipline of
handleFileMove: the timer armed by an event survives exactly when no
later event with the same key arrives strictly before the timer's
deadline (a later same-key event clears the pending timer and arms
its own). -/
def timerSurvives (e : FileEvent) (later : List FileEvent) : Bool :=
  later.all (fun e2 => !(e2.key == e.key && e2.time < e.time + debounceWindow))

/-- A fired debounce timer: when it fires, for which key, and whether
the captured action was an add (only added events trigger a push of
the ticket when the timer fires; a removed event settling is a
no-op). -/
structure Fire where
  fireTime : Nat
  key : String
  push : Bool
  deriving Repr, DecidableEq

/-- All timers that eventually fire, given the full arrival sequence:
each event arms a timer for its key at time + window, clearing any
pending timer for the same key; the surviving timers fire. -/
def debounceFires : List FileEvent → List Fire
  | [] => []
  | e :: rest =>
    (if timerSurvives e rest
     then [{ fireTime := e.time + debounceWindow, key := e.key, push := e.added }]
     else []) ++ debounceFires rest

/-- The fires belonging to one key. -/
def firesFor (k : String) (evs : List FileEvent) : List Fire :=
  (debounceFires evs).filter (fun f => f.key == k)

/-- The events belonging to one key, in arrival order. -/
def eventsFor (k : String) (evs : List FileEvent) : List FileEvent :=
  evs.filter (fun e => e.key == k)

end Daemon

/-! ## Sync operations (src/cli/sync.ts)

The sync layer works on decoded tickets: a file's bytes are related to
its TicketFile value by the codec of src/parsers (modelled separately
below), so the filesystem is modelled as folders of named entries each
carrying the decoded ticket and an mtime.  Date values (created_at,
updated_at, mtime) are compared numerically in the source (via the JS
Date order), so they are modelled as Int instants; the SGT formatting
applied by TimezoneUtils relabels the same instant (utcToSGT adds 8h
and then tags the text with +08:00, which a Date parse undoes), so
instants are preserved across it. -/

namespace Sync

def isUpperAZ (c : Char) : Bool := 'A' ≤ c && c ≤ 'Z'

def isDigit09 (c : Char) : Bool := '0' ≤ c && c ≤ '9'

def isLowerAZ (c : Char) : Bool := 'a' ≤ c && c ≤ 'z'

/-- The whitespace class of the JS regexes used by the source (titles
and filenames only ever contain the ASCII ones). -/
def isSpaceJs (c : Char) : Bool :=
  c == ' ' || c == '\t' || c == '\n' || c == '\r'

/-- TicketFileParser.extractLinearIdFromFilename: the anchored regex
(?:([A-Z]+-[0-9]+)\.([0-9]+)|([A-Z]+-[0-9]+)) at the start of the
filename; for the parent.child form PAP-434.447-... it returns the
child id rebuilt from the parent's letter prefix (PAP-447), otherwise
the plain id, and null when the start of the name does not match. -/
def extractLinearIdFromFilename (filename : String) : Option String :=
  let cs := filename.data
  let letters := cs.takeWhile isUpperAZ
  let rest1 := cs.dropWhile isUpperAZ
  if letters.isEmpty then none else
  match rest1 with
  | '-' :: rest2 =>
    let digits := rest2.takeWhile isDigit09
    let rest3 := rest2.dropWhile isDigit09
    if digits.isEmpty then none else
    match rest3 with
    | '.' :: rest4 =>
      let digits2 := rest4.takeWhile isDigit09
      if digits2.isEmpty then some (String.mk (letters ++ '-' :: digits))
      else some (String.mk (letters ++ '-' :: digits2))
    | _ => some (String.mk (letters ++ '-' :: digits))
  | _ => none

/-- Collapse runs of the character r to a single occurrence (the
hyphen-run collapse step of the title sanitizer). -/
def squashChar (r : Char) : List Char → List Char
  | [] => []
  | [c] => [c]
  | c :: d :: cs =>
    if c == r && d == r then squashChar r (d :: cs)
    else c :: squashChar r (d :: cs)

/-- Drop a single leading occurrence of r (one half of the
leading-or-trailing hyphen removal; after squashing there is at most
one at each end). -/
def dropLeadChar (r : Char) : List Char → List Char
  | [] => []
  | c :: cs => if c == r then cs else c :: cs

/-- The title sanitizer of TicketFileParser.generateFilename:
lowercase, keep only [a-z0-9 whitespace -], turn whitespace runs into
hyphens, collapse hyphen runs, strip one leading and one trailing
hyphen, and truncate to 50 characters.  (Whitespace characters are
mapped pointwise to hyphens here; the subsequent hyphen-run collapse
makes this equal to the source's whitespace-run single-hyphen
replacement.) -/
def sanitizeTitle (title : String) : String :=
  let s1 := title.data.map Char.toLower
  let s2 := s1.filter (fun c => isLowerAZ c || isDigit09 c || isSpaceJs c || c == '-')
  let s3 := s2.map (fun c => if isSpaceJs c then '-' else c)
  let s4 := squashChar '-' s3
  let s5 := (dropLeadChar '-' ((dropLeadChar '-' s4).reverse)).reverse
  String.mk (s5.take 50)

/-- TicketFileParser.generateFilename.  For a child ticket the child
number is linearId.split('-')[1]; a missing index interpolates the JS
string undefined. -/
def generateFilename (linearId title : String) (parentId : Option String) : String :=
  let sanitizedTitle := sanitizeTitle title
  match parentId with
  | some pid =>
    let childNumber := (linearId.splitOn "-").getD 1 "undefined"
    pid ++ "." ++ childNumber ++ "-" ++ sanitizedTitle ++ ".md"
  | none => linearId ++ "-" ++ sanitizedTitle ++ ".md"

def isWordChar (c : Char) : Bool :=
  isLowerAZ c || isUpperAZ c || isDigit09 c || c == '_'

/-- The /\b\w/g toUpperCase replacement (title-casing): uppercase each
word character that is not preceded by a word character. -/
def titleCaseGo : Option Char → List Char → List Char
  | _, [] => []
  | prev, c :: cs =>
    let c2 :=
      if isWordChar c &&
         (match prev with | none => true | some p => !isWordChar p)
      then c.toUpper else c
    c2 :: titleCaseGo (some c) cs

/-- extractTitleFromFilename from src/cli/sync.ts: strip the
linearId- prefix (null when absent), turn hyphens into spaces,
title-case, and return null for an empty result. -/
def extractTitleFromFilename (filename linearId : String) : Option String :=
  let pre := linearId ++ "-"
  if strStartsWith filename pre = false then none
  else
    let rest := filename.data.drop pre.data.length
    let t1 := rest.map (fun c => if c == '-' then ' ' else c)
    let t2 := titleCaseGo none t1
    if t2.isEmpty then none else some (String.mk t2)

/-- path.basename(filePath, '.md'): the name with a trailing .md
removed when present. -/
def stripMdExt (name : String) : String :=
  if strEndsWith name ".md" then String.mk (name.data.take (name.data.length - 3))
  else name

/-- One entry of the config statusMapping table. -/
structure StatusMapping where
  id : String
  folder : String
  deriving Repr, DecidableEq

/-- The parts of LinearSyncConfig the sync operations read; the
association list models Object.entries insertion order. -/
structure Config where
  statusMapping : List (String × StatusMapping)
  deriving Repr, DecidableEq

/-- findStateIdForFolder from src/cli/sync.ts: first mapping whose
folder equals the given folder. -/
def findStateIdForFolder (folder : String) (config : Config) : Option String :=
  match config.statusMapping.find? (fun e => e.2.folder == folder) with
  | some e => some e.2.id
  | none => none

/-- findStatusFolder from src/cli/sync.ts: folder of the mapping whose
state name equals the given name. -/
def findStatusFolder (stateName : String) (config : Config) : Option String :=
  match config.statusMapping.find? (fun e => e.1 == stateName) with
  | some e => some e.2.folder
  | none => none

/-- A ticket comment (decoded). -/
structure Comment where
  id : String
  author : String
  content : String
  created_at : Int
  deriving Repr, DecidableEq

/-- The decoded frontmatter of a ticket file (TicketMetadata from
src/types), with instants for the date fields. -/
structure TicketMetadata where
  linear_id : String
  title : String
  status : String
  assignee : Option String
  labels : List String
  priority : Nat
  due_date : Option Int
  url : String
  created_at : Int
  updated_at : Int
  deriving Repr, DecidableEq

/-- A decoded ticket file (TicketFile from src/types). -/
structure TicketFile where
  frontmatter : TicketMetadata
  content : String
  comments : List Comment
  deriving Repr, DecidableEq

/-- A directory entry under linear-tickets/status-folder: file name,
decoded ticket and modification time. -/
structure FileEnt where
  name : String
  ticket : TicketFile
  mtime : Int
  deriving Repr, DecidableEq

/-- One status folder of the linear-tickets tree. -/
structure Folder where
  dirName : String
  files : List FileEnt
  deriving Repr, DecidableEq

/-- The linear-tickets tree; list order models directory listing
order. -/
abbrev FS := List Folder

/-- The per-file test of findTicketFile: a markdown file whose
extracted id equals the requested id case-insensitively. -/
def fileMatches (ticketId name : String) : Bool :=
  strEndsWith name ".md" &&
    (match extractLinearIdFromFilename name with
     | some eid => jsToLower eid == jsToLower ticketId
     | none => false)

/-- findTicketFile from src/cli/sync.ts: scan the status folders in
listing order and return the first (folder, filename) whose file
matches the id. -/
def findTicketFile (fsx : FS) (ticketId : String) : Option (String × String) :=
  fsx.findSome? (fun fl =>
    match fl.files.find? (fun f => fileMatches ticketId f.name) with
    | some f => some (fl.dirName, f.name)
    | none => none)

/-- All paths in the tree whose file matches the id (the tree-wide
set of files for one ticket; findTicketFile returns its head). -/
def matchingPaths (fsx : FS) (ticketId : String) : List (String × String) :=
  fsx.flatMap (fun fl =>
    (fl.files.filter (fun f => fileMatches ticketId f.name)).map
      (fun f => (fl.dirName, f.name)))

/-- fs.readFileSync + statSync at a path of the tree. -/
def readFileFS (fsx : FS) (folder name : String) : Option FileEnt :=
  match fsx.find? (fun fl => fl.dirName == folder) with
  | some fl => fl.files.find? (fun f => f.name == name)
  | none => none

/-- fs.unlinkSync: remove the entry at the path. -/
def eraseFileFS (fsx : FS) (folder name : String) : FS :=
  fsx.map (fun fl =>
    if fl.dirName == folder
    then { fl with files := fl.files.filter (fun f => !(f.name == name)) }
    else fl)

/-- fs.writeFileSync within one folder: overwrite an existing entry of
that name or append a new one; the write refreshes the mtime. -/
def upsertFile (files : List FileEnt) (name : String) (t : TicketFile) (mtime : Int) :
    List FileEnt :=
  if files.any (fun f => f.name == name) then
    files.map (fun f => if f.name == name then ⟨name, t, mtime⟩ else f)
  else files ++ [⟨name, t, mtime⟩]

/-- fs.mkdirSync(recursive) + fs.writeFileSync: create the status
folder when missing, then write the file into it. -/
def writeFileFS (fsx : FS) (folder name : String) (t : TicketFile) (mtime : Int) : FS :=
  if fsx.any (fun fl => fl.dirName == folder) then
    fsx.map (fun fl =>
      if fl.dirName == folder
      then { fl with files := upsertFile fl.files name t mtime }
      else fl)
  else fsx ++ [{ dirName := folder, files := [⟨name, t, mtime⟩] }]

/-- The remote issue as returned by LinearSyncClient.getIssue (the
fields the sync operations read). -/
structure Issue where
  internalId : String
  identifier : String
  title : String
  description : Option String
  stateId : String
  stateName : String
  parent : Option String
  assignee : Option String
  labels : List String
  priority : Nat
  dueDate : Option Int
  url : String
  createdAt : Int
  updatedAt : Int
  comments : List Comment
  deriving Repr, DecidableEq

/-- The remote side: the issues the client can fetch. -/
structure Client where
  issues : List Issue
  deriving Repr

/-- client.getIssue(ticketId). -/
def getIssue (client : Client) (ticketId : String) : Option Issue :=
  client.issues.find? (fun i => i.identifier == ticketId)

/-- The updates object built by pushSingleTicket: each field present
exactly when the source adds that key. -/
structure IssueUpdate where
  stateId : Option String
  title : Option String
  description : Option String
  deriving Repr, DecidableEq

/-- Object.keys(updates).length == 0. -/
def IssueUpdate.isEmpty (u : IssueUpdate) : Bool :=
  u.stateId.isNone && u.title.isNone && u.description.isNone

/-- JS String.prototype.trim on ASCII whitespace (kernel-reducible
form used by the decoded-ticket validation). -/
def jsTrimStr (s : String) : String :=
  String.mk (((s.data.dropWhile isSpaceJs).reverse.dropWhile isSpaceJs).reverse)

/-- TicketFileParser.validateFile on a decoded ticket: required
frontmatter fields nonempty, priority (when truthy) in 1..4, content
nonempty after trimming, comment fields nonempty.  The ISO-date string
checks concern the textual representation and always hold for a
decoded instant. -/
def validateTicketOk (t : TicketFile) : Bool :=
  !(t.frontmatter.linear_id == "") && !(t.frontmatter.status == "") &&
  !(t.frontmatter.url == "") &&
  (t.frontmatter.priority == 0 || [1, 2, 3, 4].contains t.frontmatter.priority) &&
  !(jsTrimStr t.content == "") &&
  t.comments.all (fun c => !(c.id == "") && !(c.author == "") && !(c.content == ""))

/-- The title pushSingleTicket will compare against the remote title:
the frontmatter title when truthy, else the title recovered from the
filename (null when neither exists). -/
def newTitleFor (t : TicketFile) (fileName : String) : Option String :=
  let titleFromFrontmatter := t.frontmatter.title
  let titleFromFilename :=
    extractTitleFromFilename (stripMdExt fileName) t.frontmatter.linear_id
  if !(titleFromFrontmatter == "") then some titleFromFrontmatter
  else titleFromFilename

/-- The updates object of pushSingleTicket (src/cli/sync.ts lines
93-117): stateId when the remote state differs from the one implied
by the file's folder, title when a local title exists and differs,
description when the local content is nonempty and differs. -/
def buildUpdates (t : TicketFile) (fileName : String) (issue : Issue)
    (newStateId : String) : IssueUpdate :=
  let u0 : IssueUpdate := { stateId := none, title := none, description := none }
  let u1 := if !(issue.stateId == newStateId) then { u0 with stateId := some newStateId } else u0
  let u2 :=
    match newTitleFor t fileName with
    | some nt => if !(issue.title == nt) then { u1 with title := some nt } else u1
    | none => u1
  if !(t.content == "") && !(issue.description == some t.content) then
    { u2 with description := some t.content }
  else u2

/-- Result of a push: the tree afterwards and the updateIssue calls
made (issue internal id, fields), in order. -/
structure PushResult where
  fs : FS
  updateCalls : List (String × IssueUpdate)
  deriving Repr, DecidableEq

/-- The local rewrite performed after a successful remote update: the
same ticket with its own updated_at set to the current time. -/
def refreshUpdatedAt (t : TicketFile) (now : Int) : TicketFile :=
  { t with frontmatter := { t.frontmatter with updated_at := now } }

/-- pushSingleTicket from src/cli/sync.ts: locate the file, decode and
validate it, map the folder back to a state id, fetch the remote
issue, diff {state, title, description}; when some field differs,
issue one updateIssue call with exactly the changed fields and
rewrite the local file with updated_at set to now; otherwise do
nothing. -/
def pushSingleTicket (client : Client) (config : Config) (fsx : FS) (now : Int)
    (ticketId : String) : Except String PushResult :=
  match findTicketFile fsx ticketId with
  | none => Except.error "Ticket file not found"
  | some (folder, name) =>
    match readFileFS fsx folder name with
    | none => Except.error "read failed"
    | some fe =>
      if validateTicketOk fe.ticket = false then Except.error "Invalid ticket file"
      else
        match findStateIdForFolder folder config with
        | none => Except.error "Cannot find Linear state ID for folder"
        | some newStateId =>
          match getIssue client fe.ticket.frontmatter.linear_id with
          | none => Except.error "issue not found"
          | some issue =>
            if (buildUpdates fe.ticket name issue newStateId).isEmpty then
              Except.ok { fs := fsx, updateCalls := [] }
            else
              Except.ok
                { fs := writeFileFS fsx folder name (refreshUpdatedAt fe.ticket now) now,
                  updateCalls := [(issue.internalId,
                    buildUpdates fe.ticket name issue newStateId)] }

/-- convertLinearIssueToTicket from src/cli/sync.ts; an absent or
empty description becomes the placeholder body. -/
def convertLinearIssueToTicket (issue : Issue) : TicketFile :=
  let placeholder := "# " ++ issue.title ++ "\n\n*No description provided*"
  { frontmatter := {
      linear_id := issue.identifier, title := issue.title,
      status := issue.stateName, assignee := issue.assignee,
      labels := issue.labels, priority := issue.priority,
      due_date := issue.dueDate, url := issue.url,
      created_at := issue.createdAt, updated_at := issue.updatedAt },
    content :=
      (match issue.description with
       | some d => if d == "" then placeholder else d
       | none => placeholder),
    comments := issue.comments }

/-- pullSingleTicket from src/cli/sync.ts: fetch the issue, locate any
existing file for the id, resolve the status folder (error before any
tree change when unmapped), compute the target path; when an existing
file sits at a different path delete it, then write the freshly
converted ticket at the target (creating the folder as needed).
Returns the tree and the target path. -/
def pullSingleTicket (client : Client) (config : Config) (fsx : FS) (now : Int)
    (ticketId : String) : Except String (FS × String × String) :=
  match getIssue client ticketId with
  | none => Except.error "Ticket not found in Linear"
  | some issue =>
    let existingFilePath := findTicketFile fsx issue.identifier
    match findStatusFolder issue.stateName config with
    | none => Except.error "Unknown Linear state not in config"
    | some statusFolder =>
      let filename := generateFilename issue.identifier issue.title issue.parent
      let ticket := convertLinearIssueToTicket issue
      let fs1 :=
        match existingFilePath with
        | some p =>
          if !(p == (statusFolder, filename)) then eraseFileFS fsx p.1 p.2 else fsx
        | none => fsx
      let fs2 := writeFileFS fs1 statusFolder filename ticket now
      Except.ok (fs2, statusFolder, filename)

/-- The per-file outcome inside the push-all loop. -/
inductive PushOutcome
  | pushed
  | skipped
  | errored
  deriving Repr, DecidableEq

/-- getAllTicketFiles from src/cli/sync.ts: every .md file except
README.md, across the status folders in listing order. -/
def getAllTicketFiles (fsx : FS) : List (String × String) :=
  fsx.flatMap (fun fl =>
    (fl.files.filter (fun f => strEndsWith f.name ".md" && !(f.name == "README.md"))).map
      (fun f => (fl.dirName, f.name)))

/-- Result of push-all: final tree, all updateIssue calls, the
outcome per visited file (in visiting order) and the three counters
printed by the source. -/
structure PushAllResult where
  fs : FS
  updateCalls : List (String × IssueUpdate)
  outcomes : List PushOutcome
  pushedCount : Nat
  skippedCount : Nat
  errorCount : Nat
  deriving Repr, DecidableEq

/-- The loop of pushAllTickets over the pre-computed file list: read
the file at its path in the current tree, push when the mtime is
strictly newer than the stored updated_at, count it as skipped
otherwise; any thrown error (missing file or a failing push) is
caught and counted, never aborting the loop. -/
def pushAllGo (client : Client) (config : Config) (now : Int) :
    List (String × String) → FS → PushAllResult
  | [], fsx =>
    { fs := fsx, updateCalls := [], outcomes := [],
      pushedCount := 0, skippedCount := 0, errorCount := 0 }
  | (folder, name) :: rest, fsx =>
    match readFileFS fsx folder name with
    | none =>
      let r := pushAllGo client config now rest fsx
      { r with outcomes := PushOutcome.errored :: r.outcomes,
               errorCount := r.errorCount + 1 }
    | some fe =>
      if fe.mtime > fe.ticket.frontmatter.updated_at then
        match pushSingleTicket client config fsx now fe.ticket.frontmatter.linear_id with
        | Except.ok pr =>
          let r := pushAllGo client config now rest pr.fs
          { fs := r.fs, updateCalls := pr.updateCalls ++ r.updateCalls,
            outcomes := PushOutcome.pushed :: r.outcomes,
            pushedCount := r.pushedCount + 1,
            skippedCount := r.skippedCount, errorCount := r.errorCount }
        | Except.error _ =>
          let r := pushAllGo client config now rest fsx
          { r with outcomes := PushOutcome.errored :: r.outcomes,
                   errorCount := r.errorCount + 1 }
      else
        let r := pushAllGo client config now rest fsx
        { r with outcomes := PushOutcome.skipped :: r.outcomes,
                 skippedCount := r.skippedCount + 1 }

/-- pushAllTickets from src/cli/sync.ts. -/
def pushAllTickets (client : Client) (config : Config) (fsx : FS) (now : Int) :
    PushAllResult :=
  pushAllGo client config now (getAllTicketFiles fsx) fsx

end Sync

/-! ## Same-id concurrency model (SyncDaemon, Node event loop)

The daemon runs pulls (webhook handler, SyncDaemon.syncTicket) and
pushes (debounce timer callback in SyncDaemon.handleFileMove)
concurrently on the Node event loop.  Each operation is a sequence of
synchronous segments separated by await suspension points; a
synchronous segment runs to completion without interleaving, while at
a suspension point any other ready task may run.  The SyncDaemon class
state consists of the ngrok url, webhook id, server handle, restart
timer, slack service, file watcher and the moveDebounceMap of pending
timers; it contains no per-id lock, and neither syncTicket nor
handleFileMove consults any mutual-exclusion structure before calling
pullSingleTicket or pushSingleTicket, so a task is ready as soon as
its awaited call resolves. -/

namespace Concurrency

/-- An atomic filesystem access to the ticket file of one id. -/
inductive FileOp where
  | fsRead (id : String)
  | fsWrite (id : String)
  | fsDelete (id : String)
  deriving Repr, DecidableEq

/-- One synchronous segment: the file operations it performs (an empty
segment performs none, e.g. a segment that only builds the updates
object between two awaits). -/
abbrev Seg := List FileOp

/-- A task: its synchronous segments in program order, consecutive
segments separated by an await. -/
abbrev ConcTask := List Seg

/-- pushSingleTicket as run by the debounce callback, for one id:
read file + parse + validate (sync, lines 65-88); await
client.getIssue (line 91); build the updates object (sync, lines
94-117); await client.updateIssue (line 121); rewrite the file (sync,
line 127). -/
def pushTask (id : String) : ConcTask :=
  [[FileOp.fsRead id], [], [FileOp.fsWrite id]]

/-- pullSingleTicket as run by the webhook handler, for one id: await
client.getIssue (line 180); then findTicketFile, unlink of a moved
old file, mkdir and write, all synchronous (lines 188-233). -/
def pullTask (id : String) : ConcTask :=
  [[], [FileOp.fsDelete id, FileOp.fsWrite id]]

/-- Event-loop schedules reachable from an initial task list: at each
step any task whose next segment exists may run it (there is no lock
that could make a task non-ready).  The trace records which task ran
which segment, in execution order. -/
inductive Reach (init : List ConcTask) : List ConcTask → List (Nat × Seg) → Prop
  | refl : Reach init init []
  | step {tasks : List ConcTask} {tr : List (Nat × Seg)} {i : Nat} {seg : Seg}
      {rest : ConcTask} :
      Reach init tasks tr →
      tasks.get? i = some (seg :: rest) →
      Reach init (tasks.set i rest) (tr ++ [(i, seg)])

/-- Two operations overlap in a trace when some file access of one
falls strictly between two file accesses of the other: the inner
operation ran while the outer one was still in flight, i.e. the
second request did not queue behind the busy id. -/
def Overlap (tr : List (Nat × Seg)) : Prop :=
  ∃ p q r : Fin tr.length, p < q ∧ q < r ∧
    (tr.get p).1 = (tr.get r).1 ∧ (tr.get q).1 ≠ (tr.get p).1 ∧
    (tr.get p).2 ≠ [] ∧ (tr.get q).2 ≠ [] ∧ (tr.get r).2 ≠ []

/-- The segments a given task contributed to a trace, in order. -/
def projTask (i : Nat) (tr : List (Nat × Seg)) : List Seg :=
  (tr.filter (fun e => e.1 == i)).map (fun e => e.2)

/-- A concrete event-loop schedule of a push and a pull for the same
id PAP-1 in which the pull's delete and write land between the push's
read and the push's write. -/
def overlapTrace : List (Nat × Seg) :=
  [(0, [FileOp.fsRead "PAP-1"]),
   (1, []),
   (1, [FileOp.fsDelete "PAP-1", FileOp.fsWrite "PAP-1"]),
   (0, []),
   (0, [FileOp.fsWrite "PAP-1"])]

end Concurrency

/-! ## Ticket file codec (src/parsers/index.ts)

TicketFileParser delegates the YAML work to the external gray-matter
and js-yaml libraries; those collaborators are modelled as a parameter
record (YamlIO) of dump and load functions, while everything the
repository itself does around them (frontmatter delimiting, the
comments separator split, trimming, the array check) is modelled
concretely.  A small concrete instance (Demo below) stands in for the
libraries when evaluating the codec on explicit tickets. -/

namespace Codec

/-- The parse/print functions supplied by gray-matter and js-yaml for
a frontmatter type FM and a comment type C.  loadFM models the cast
of the parsed data object (an empty or unparsable frontmatter block
casts to an object whose reads come back undefined; emptyFM models
that object).  loadComments returns none when js-yaml throws or the
result is not an array. -/
structure YamlIO (FM C : Type) where
  dumpFM : FM → String
  loadFM : String → FM
  emptyFM : FM
  dumpComments : List C → String
  loadComments : String → Option (List C)

/-- JS String.prototype.trim (the source only ever trims ASCII
whitespace). -/
def jsTrim (s : String) : String :=
  String.mk (((s.data.dropWhile Sync.isSpaceJs).reverse.dropWhile Sync.isSpaceJs).reverse)

/-- First occurrence split: when sep occurs in s, the part before the
first occurrence and the part after it. -/
def splitFirstSub (sep : List Char) : List Char → Option (List Char × List Char)
  | [] => if sep.isEmpty then some ([], []) else none
  | c :: cs =>
    if listHasPre sep (c :: cs) then some ([], (c :: cs).drop sep.length)
    else
      match splitFirstSub sep cs with
      | some (a, b) => some (c :: a, b)
      | none => none

/-- JS String.prototype.split with a (nonempty) string separator:
cut at each leftmost non-overlapping occurrence. -/
def splitAllSub (sep : List Char) : List Char → List (List Char)
  | [] => [[]]
  | c :: cs =>
    if h : sep.isEmpty = false ∧ listHasPre sep (c :: cs) = true then
      [] :: splitAllSub sep ((c :: cs).drop sep.length)
    else
      match splitAllSub sep cs with
      | [] => [[c]]
      | a :: rest => (c :: a) :: rest
termination_by s => s.length
decreasing_by
  · simp only [List.length_drop, List.length_cons]
    have hlen : 1 ≤ sep.length := by
      cases sep with
      | nil => simp at h
      | cons x xs => simp
    omega
  · simp

/-- The comments separator constant of TicketFileParser. -/
def COMMENTS_SEPARATOR : String := "---comments---"

/-- The split separator used by parseFile: newline, separator,
newline. -/
def commentsSep : List Char := ("\n" ++ COMMENTS_SEPARATOR ++ "\n").data

/-- The frontmatter closing delimiter searched by gray-matter: a line
consisting of three dashes. -/
def matterSep : List Char := "\n---\n".data

/-- gray-matter: when the text starts with the opening delimiter, the
frontmatter block runs to the first closing delimiter line and is
yaml-loaded into data, and content is everything after it; otherwise
data is empty and content is the whole text. -/
def matterParse (io : YamlIO FM C) (s : String) : FM × String :=
  if strStartsWith s "---\n" then
    match splitFirstSub matterSep (s.data.drop 4) with
    | some (fmBlock, rest) => (io.loadFM (String.mk fmBlock), String.mk rest)
    | none => (io.emptyFM, s)
  else (io.emptyFM, s)

/-- TicketFileParser.parseFile: gray-matter split, then cut the
content at the comments separator; part 0 trimmed is the main
content; when a part 1 exists and trims nonempty it is yaml-loaded
and kept only when it is an array. -/
def parseFile (io : YamlIO FM C) (content : String) : FM × String × List C :=
  let parsed := matterParse io content
  let parts := splitAllSub commentsSep parsed.2.data
  let mainContent := jsTrim (String.mk (parts.getD 0 []))
  let comments : List C :=
    match parts.get? 1 with
    | some p1 =>
      let t := jsTrim (String.mk p1)
      if t == "" then []
      else
        match io.loadComments t with
        | some arr => arr
        | none => []
    | none => []
  (parsed.1, mainContent, comments)

/-- TicketFileParser.generateFile: frontmatter block, blank line, main
content, and when comments exist a blank line, the separator line and
the dumped comments.  (The source calls validateFrontmatter here but
discards its result, so it has no effect.) -/
def generateFile (io : YamlIO FM C) (fm : FM) (content : String) (comments : List C) :
    String :=
  let frontmatterYaml := io.dumpFM fm
  let base := "---\n" ++ frontmatterYaml ++ "---\n\n" ++ content
  if comments.length > 0 then
    base ++ "\n\n" ++ COMMENTS_SEPARATOR ++ "\n" ++ io.dumpComments comments
  else base

/-- No occurrence of sep starts inside xs when xs is followed by ys
(checks every suffix boundary of xs against the concatenation). -/
def noEarly (sep : List Char) : List Char → List Char → Bool
  | [], _ => true
  | c :: xs2, ys => !(listHasPre sep (c :: (xs2 ++ ys))) && noEarly sep xs2 ys

end Codec

/-! ## Theorems -/

/-- An operation that always throws a transient network error
(retryable under the classifier). -/
def alwaysNetworkError : Nat → Except String Unit :=
  fun _ => Except.error "network timeout"

/-- The observable run of withRetry on alwaysNetworkError under the
default configuration. -/
def retryEvalRun : RetryManager.RetryRun Unit :=
  RetryManager.withRetry alwaysNetworkError RetryManager.DEFAULT_CONFIG

/-- C5: an always-transiently-failing operation is invoked exactly
maxAttempts = 3 times and the last error is raised, but the delay
schedule the code actually executes is 120000ms before attempt 2 and
30000ms before attempt 3 - not the short-then-long schedule (30s then
2min) stated by the claim and by the source's own comment on
DEFAULT_CONFIG: delays[attempt - 1] is delays[0] = 0 for attempt 2,
which is falsy in JS, so the fallback picks delays[2] = 120000, and
attempt 3 gets delays[1] = 30000. -/
theorem C5_retry_schedule_eval :
    retryEvalRun.calls = 3 ∧
    retryEvalRun.sleeps = [120000, 30000] ∧
    retryEvalRun.outcome = Except.error "network timeout" ∧
    retryEvalRun.sleeps ≠ [30000, 120000] := by
  decide

/-- Helper for C6: running the retry loop from a given attempt index,
when attempts attempt..attempt+k-1 raise retryable errors and attempt
attempt+k raises a non-retryable error, makes exactly k+1 calls and
raises that error. -/
theorem withRetryGo_fatal {α : Type} (op : Nat → Except String α)
    (cfg : RetryManager.RetryConfig) (e : String)
    (hcls : RetryManager.isRetryableError e = false) :
    ∀ (k attempt fuel : Nat), attempt + fuel = cfg.maxAttempts →
    attempt + k < cfg.maxAttempts →
    (∀ i, i < k → ∃ ei, op (attempt + i) = Except.error ei ∧
      RetryManager.isRetryableError ei = true) →
    op (attempt + k) = Except.error e →
    (RetryManager.withRetryGo op cfg attempt fuel).calls = k + 1 ∧
    (RetryManager.withRetryGo op cfg attempt fuel).outcome = Except.error e := by
  intro k
  induction k with
  | zero =>
    intro attempt fuel hsum hlt hr hop
    obtain ⟨f, rfl⟩ : ∃ f, fuel = f + 1 := ⟨fuel - 1, by omega⟩
    rw [Nat.add_zero] at hop
    simp [RetryManager.withRetryGo, hop, hcls]
  | succ k ih =>
    intro attempt fuel hsum hlt hr hop
    obtain ⟨f, rfl⟩ : ∃ f, fuel = f + 1 := ⟨fuel - 1, by omega⟩
    obtain ⟨e0, hop0, hret0⟩ := hr 0 (by omega)
    rw [Nat.add_zero] at hop0
    have hnotlast : ¬ attempt = cfg.maxAttempts - 1 := by omega
    have hih := ih (attempt + 1) f (by omega) (by omega)
      (fun i hi => by
        obtain ⟨ei, hei, hri⟩ := hr (i + 1) (by omega)
        exact ⟨ei, by rwa [show attempt + (i + 1) = attempt + 1 + i by omega] at hei, hri⟩)
      (by rwa [show attempt + (k + 1) = attempt + 1 + k by omega] at hop)
    simp [RetryManager.withRetryGo, hop0, hret0, hnotlast, hih.1, hih.2]
    omega

/-- C6: a non-retryable (fatal) error raised by some attempt is
rethrown to the caller right after that attempt, with no further
invocation of the operation; and an error message matching none of
the classifier's substrings is treated as retryable. -/
theorem C6_fatal_no_retry {α : Type} (op : Nat → Except String α)
    (cfg : RetryManager.RetryConfig) (k : Nat) (e : String)
    (hk : k < cfg.maxAttempts)
    (hretry : ∀ i, i < k → ∃ ei, op i = Except.error ei ∧
      RetryManager.isRetryableError ei = true)
    (hfatal : op k = Except.error e)
    (hcls : RetryManager.isRetryableError e = false) :
    (RetryManager.withRetry op cfg).calls = k + 1 ∧
    (RetryManager.withRetry op cfg).outcome = Except.error e ∧
    (∀ m, RetryManager.matchesAnyClass m = false →
      RetryManager.isRetryableError m = true) := by
  have h := withRetryGo_fatal op cfg e hcls k 0 cfg.maxAttempts (by omega) (by omega)
    (by simpa using hretry) (by simpa using hfatal)
  refine ⟨h.1, h.2, ?_⟩
  intro m hm
  simp only [RetryManager.matchesAnyClass, RetryManager.classifierTokens,
    List.any_cons, List.any_nil, Bool.or_eq_false_iff] at hm
  simp only [RetryManager.isRetryableError]
  simp_all

/-- The operation used to witness C6: a retryable connection error on
attempt 1, then a fatal authorization error. -/
def demoFatalOp : Nat → Except String Unit :=
  fun n => if n = 0 then Except.error "connection reset" else Except.error "403 forbidden"

/-- Witness for C6 at a concrete operation: a 403 on the second
attempt stops the default-config retry loop after exactly 2 calls. -/
theorem C6_fatal_no_retry_witness :
    (RetryManager.withRetry demoFatalOp RetryManager.DEFAULT_CONFIG).calls = 2 ∧
    (RetryManager.withRetry demoFatalOp RetryManager.DEFAULT_CONFIG).outcome =
      Except.error "403 forbidden" := by
  have h := C6_fatal_no_retry demoFatalOp RetryManager.DEFAULT_CONFIG 1 "403 forbidden"
    (by decide)
    (fun i hi => ⟨"connection reset", by
      have : i = 0 := by omega
      subst this
      exact ⟨by decide, by decide⟩⟩)
    (by decide) (by decide)
  exact ⟨h.1, h.2.1⟩

/-- Helper for C7: a notification of unrecognized shape is ignored
with a success response and no processing. -/
theorem webhook_unrecognized (body : Daemon.WebhookBody)
    (syncOp deleteOp : Nat → Except String Unit)
    (h : body.ticketId = none ∨
      (body.action ≠ some "update" ∧ body.action ≠ some "create" ∧
       body.action ≠ some "remove")) :
    Daemon.webhookHandler body syncOp deleteOp =
      { status := 200, graceDelay := 0, processing := none } := by
  unfold Daemon.webhookHandler
  rcases hid : body.ticketId with _ | tid
  · rfl
  · rcases h with h | ⟨h1, h2, h3⟩
    · rw [h] at hid
      cases hid
    · simp [h1, h2, h3]

/-- Helper for C7: whenever processing was started, it is a withRetry
run of one of the two operations, and the response status is 200 for
a successful outcome and 500 for an error outcome. -/
theorem webhook_processing (body : Daemon.WebhookBody)
    (syncOp deleteOp : Nat → Except String Unit)
    (run : RetryManager.RetryRun Unit)
    (h : (Daemon.webhookHandler body syncOp deleteOp).processing = some run) :
    (run = RetryManager.withRetry syncOp RetryManager.DEFAULT_CONFIG ∨
     run = RetryManager.withRetry deleteOp RetryManager.DEFAULT_CONFIG) ∧
    (Daemon.webhookHandler body syncOp deleteOp).status =
      (match run.outcome with
       | Except.ok _ => 200
       | Except.error _ => 500) := by
  unfold Daemon.webhookHandler at h ⊢
  rcases hid : body.ticketId with _ | tid
  · simp only [hid] at h
    simp at h
  · simp only [hid] at h ⊢
    split at h
    · split at h
      · rename_i v hout
        simp only at h
        cases h
        exact ⟨Or.inl rfl, by simp_all⟩
      · rename_i e hout
        simp only at h
        cases h
        exact ⟨Or.inl rfl, by simp_all⟩
    · split at h
      · split at h
        · rename_i v hout
          simp only at h
          cases h
          exact ⟨Or.inr rfl, by simp_all⟩
        · rename_i e hout
          simp only at h
          cases h
          exact ⟨Or.inr rfl, by simp_all⟩
      · simp at h

/-- Helper for C7: a request that starts no processing is answered
with status 200. -/
theorem webhook_noProcessing_200 (body : Daemon.WebhookBody)
    (syncOp deleteOp : Nat → Except String Unit)
    (h : (Daemon.webhookHandler body syncOp deleteOp).processing = none) :
    (Daemon.webhookHandler body syncOp deleteOp).status = 200 := by
  unfold Daemon.webhookHandler at h ⊢
  rcases hid : body.ticketId with _ | tid
  · simp [hid]
  · simp only [hid] at h ⊢
    split at h
    · split at h <;> simp_all
    · split at h
      · split at h <;> simp_all
      · simp_all

/-- C7 (amended): the endpoint responds 200 with no processing for a
notification of unrecognized shape; whenever processing was started
it ran under RetryManager.withRetry with the default config and the
handler awaited it, answering 200 exactly when the retried processing
succeeded; any 500 response stems from a processing error that
survived the internal retries (immediately fatal, or retryable but
exhausted). -/
theorem C7_webhook_amended (body : Daemon.WebhookBody)
    (syncOp deleteOp : Nat → Except String Unit) :
    ((body.ticketId = none ∨
      (body.action ≠ some "update" ∧ body.action ≠ some "create" ∧
       body.action ≠ some "remove")) →
      Daemon.webhookHandler body syncOp deleteOp =
        { status := 200, graceDelay := 0, processing := none }) ∧
    (∀ run, (Daemon.webhookHandler body syncOp deleteOp).processing = some run →
      (run = RetryManager.withRetry syncOp RetryManager.DEFAULT_CONFIG ∨
       run = RetryManager.withRetry deleteOp RetryManager.DEFAULT_CONFIG) ∧
      (Daemon.webhookHandler body syncOp deleteOp).status =
        (match run.outcome with
         | Except.ok _ => 200
         | Except.error _ => 500)) ∧
    ((Daemon.webhookHandler body syncOp deleteOp).status ≠ 200 →
      ∃ run e, (Daemon.webhookHandler body syncOp deleteOp).processing = some run ∧
        run.outcome = Except.error e) := by
  refine ⟨fun h => webhook_unrecognized body syncOp deleteOp h,
    fun run h => webhook_processing body syncOp deleteOp run h, fun hst => ?_⟩
  rcases hproc : (Daemon.webhookHandler body syncOp deleteOp).processing with _ | run
  · exact absurd (webhook_noProcessing_200 body syncOp deleteOp hproc) hst
  · have hp := webhook_processing body syncOp deleteOp run hproc
    rcases hout : run.outcome with e | v
    · exact ⟨run, e, ⟨rfl, hout⟩⟩
    · exact absurd (by rw [hp.2, hout]) hst

/-- A webhook body for an issue update with a resolvable identifier. -/
def c7Body : Daemon.WebhookBody :=
  { action := some "update", btype := some "Issue", ticketId := some "PAP-7" }

/-- A processing operation (the pull inside syncTicket) that always
fails with a rate-limit error, which the classifier marks retryable -
i.e. not an immediately fatal failure. -/
def c7FailingSync : Nat → Except String Unit :=
  fun _ => Except.error "rate limit exceeded"

/-- A deletion operation that is never reached in the update branch. -/
def c7IdleDelete : Nat → Except String Unit :=
  fun _ => Except.ok ()

/-- C7 counterexample: for an update notification whose processing
keeps failing with a retryable (not immediately fatal) error, the
endpoint responds HTTP 500 once the internal retries are exhausted -
the handler awaits processing before answering, so a non-fatal
processing failure does surface as an HTTP failure, contrary to the
claim. -/
theorem C7_counterexample :
    RetryManager.isRetryableError "rate limit exceeded" = true ∧
    (Daemon.webhookHandler c7Body c7FailingSync c7IdleDelete).status = 500 ∧
    (500 : Nat) ≠ 200 := by
  decide

/-- A notification of unrecognized shape (unknown action). -/
def c7OddBody : Daemon.WebhookBody :=
  { action := some "celebrate", btype := some "Issue", ticketId := some "PAP-9" }

/-- Witness for the amended C7: an unrecognized action is ignored with
a 200 response and no processing. -/
theorem C7_webhook_amended_witness :
    Daemon.webhookHandler c7OddBody c7IdleDelete c7IdleDelete =
      { status := 200, graceDelay := 0, processing := none } :=
  (C7_webhook_amended c7OddBody c7IdleDelete c7IdleDelete).1
    (Or.inr ⟨by decide, by decide, by decide⟩)

/-- Helper for C8: unfolding of the per-key fires over a cons of the
arrival list. -/
theorem firesFor_cons (k : String) (e : Daemon.FileEvent)
    (rest : List Daemon.FileEvent) :
    Daemon.firesFor k (e :: rest) =
      (List.filter (fun f => f.key == k)
        (if Daemon.timerSurvives e rest = true then
          [{ fireTime := e.time + Daemon.debounceWindow, key := e.key,
             push := e.added }]
        else [])) ++ Daemon.firesFor k rest := by
  simp [Daemon.firesFor, Daemon.debounceFires, List.filter_append]

/-- Helper for C8: a key with no events in the arrival list produces
no fires for that key. -/
theorem firesFor_eq_nil (k : String) : ∀ evs : List Daemon.FileEvent,
    Daemon.eventsFor k evs = [] → Daemon.firesFor k evs = [] := by
  intro evs
  induction evs with
  | nil => intro _; rfl
  | cons e rest ih =>
    intro h
    have hk : (e.key == k) = false := by
      cases hc : (e.key == k)
      · rfl
      · simp [Daemon.eventsFor, List.filter_cons, hc] at h
    have hrest : Daemon.eventsFor k rest = [] := by
      simpa [Daemon.eventsFor, List.filter_cons, hk] using h
    rw [firesFor_cons, ih hrest]
    cases hts : Daemon.timerSurvives e rest <;> simp [hk]

/-- C8: for any burst of added events for one key in which each event
arrives strictly within the debounce window of its predecessor,
exactly one fire is emitted for that key: a push, scheduled one
debounce window after the last event of the burst (each event having
reset the key's timer). -/
theorem C8_debounce_coalesce (k : String) :
    ∀ (evs : List Daemon.FileEvent) (last : Daemon.FileEvent),
    (Daemon.eventsFor k evs).getLast? = some last →
    (∀ e ∈ Daemon.eventsFor k evs, e.added = true) →
    (Daemon.eventsFor k evs).Chain'
      (fun a b => b.time < a.time + Daemon.debounceWindow) →
    Daemon.firesFor k evs =
      [{ fireTime := last.time + Daemon.debounceWindow, key := k, push := true }] := by
  intro evs
  induction evs with
  | nil => intro last hlast _ _; simp [Daemon.eventsFor] at hlast
  | cons e rest ih =>
    intro last hlast hadded hburst
    cases hk : (e.key == k) with
    | false =>
      have hev : Daemon.eventsFor k (e :: rest) = Daemon.eventsFor k rest := by
        simp [Daemon.eventsFor, List.filter_cons, hk]
      rw [hev] at hlast hadded hburst
      have hrec := ih last hlast hadded hburst
      rw [firesFor_cons, hrec]
      cases hts : Daemon.timerSurvives e rest <;> simp [hk]
    | true =>
      have hkey : e.key = k := by simpa using hk
      have hev : Daemon.eventsFor k (e :: rest) = e :: Daemon.eventsFor k rest := by
        simp [Daemon.eventsFor, List.filter_cons, hk]
      rw [hev] at hlast hadded hburst
      cases h2 : Daemon.eventsFor k rest with
      | nil =>
        rw [h2] at hlast
        have hle : e = last := by simpa using hlast
        have hts : Daemon.timerSurvives e rest = true := by
          simp only [Daemon.timerSurvives, List.all_eq_true]
          intro e2 he2
          cases hc : (e2.key == e.key)
          · simp [hc]
          · exfalso
            have he2e : e2.key = e.key := by simpa using hc
            have he2k : e2.key = k := by rw [he2e, hkey]
            have hmem : e2 ∈ Daemon.eventsFor k rest := by
              simp [Daemon.eventsFor, List.mem_filter, he2, he2k]
            rw [h2] at hmem
            simp at hmem
        have hadd : e.added = true := hadded e (by simp)
        have hrest0 : Daemon.firesFor k rest = [] := firesFor_eq_nil k rest h2
        rw [firesFor_cons, hrest0, hts, ← hle]
        simp [hkey, hadd]
      | cons e2 tl =>
        rw [h2] at hlast hadded hburst
        have hlast2 : (Daemon.eventsFor k rest).getLast? = some last := by
          rw [h2]
          simpa using hlast
        have hadded2 : ∀ x ∈ Daemon.eventsFor k rest, x.added = true := by
          rw [h2]
          intro x hx
          exact hadded x (List.mem_cons_of_mem e hx)
        have hburst2 : (Daemon.eventsFor k rest).Chain'
            (fun a b => b.time < a.time + Daemon.debounceWindow) := by
          rw [h2]
          exact (List.chain'_cons.mp hburst).2
        have hnear : e2.time < e.time + Daemon.debounceWindow :=
          (List.chain'_cons.mp hburst).1
        have he2k : e2.key = k := by
          have hmem : e2 ∈ Daemon.eventsFor k rest := by rw [h2]; simp
          simpa using (List.mem_filter.mp hmem).2
        have he2mem : e2 ∈ rest := by
          have hmem : e2 ∈ Daemon.eventsFor k rest := by rw [h2]; simp
          exact (List.mem_filter.mp hmem).1
        have hts : Daemon.timerSurvives e rest = false := by
          cases hc : Daemon.timerSurvives e rest
          · rfl
          · exfalso
            have hall := List.all_eq_true.mp hc e2 he2mem
            rw [he2k, hkey] at hall
            simp [hnear] at hall
        have hrec := ih last hlast2 hadded2 hburst2
        rw [firesFor_cons, hrec, hts]
        simp

/-- Five rapid added events for one key, 100ms apart (well inside the
2000ms debounce window). -/
def c8Events : List Daemon.FileEvent :=
  [{ time := 0, key := "PAP-5", added := true },
   { time := 100, key := "PAP-5", added := true },
   { time := 200, key := "PAP-5", added := true },
   { time := 300, key := "PAP-5", added := true },
   { time := 400, key := "PAP-5", added := true }]

/-- Witness for C8: the five-event burst produces exactly one push
fire, 2000ms after the last event. -/
theorem C8_debounce_coalesce_witness :
    Daemon.firesFor "PAP-5" c8Events =
      [{ fireTime := 2400, key := "PAP-5", push := true }] := by
  have hev : Daemon.eventsFor "PAP-5" c8Events = c8Events := by decide
  have hch : c8Events.Chain' (fun a b => b.time < a.time + Daemon.debounceWindow) := by
    simp [c8Events, List.chain'_cons, Daemon.debounceWindow]
  have h := C8_debounce_coalesce "PAP-5" c8Events
    { time := 400, key := "PAP-5", added := true } (by decide) (by decide)
    (by rw [hev]; exact hch)
  exact h

/-- C4: when the decoded state, title and description all match the
remote issue, pushSingleTicket makes zero remote write calls (and
leaves the tree alone); when the diff is nonempty, it makes exactly
one updateIssue call carrying exactly the changed fields and rewrites
the local file with updated_at set to now. -/
theorem C4_push_diff (client : Sync.Client) (config : Sync.Config) (fsx : Sync.FS)
    (now : Int) (ticketId folder name : String) (fe : Sync.FileEnt)
    (newStateId : String) (issue : Sync.Issue)
    (hfind : Sync.findTicketFile fsx ticketId = some (folder, name))
    (hread : Sync.readFileFS fsx folder name = some fe)
    (hvalid : Sync.validateTicketOk fe.ticket = true)
    (hstate : Sync.findStateIdForFolder folder config = some newStateId)
    (hissue : Sync.getIssue client fe.ticket.frontmatter.linear_id = some issue) :
    ((issue.stateId = newStateId ∧
      (∀ t, Sync.newTitleFor fe.ticket name = some t → issue.title = t) ∧
      (fe.ticket.content ≠ "" → issue.description = some fe.ticket.content)) →
      Sync.pushSingleTicket client config fsx now ticketId =
        Except.ok { fs := fsx, updateCalls := [] }) ∧
    ((Sync.buildUpdates fe.ticket name issue newStateId).isEmpty = false →
      Sync.pushSingleTicket client config fsx now ticketId =
        Except.ok
          { fs := Sync.writeFileFS fsx folder name
              (Sync.refreshUpdatedAt fe.ticket now) now,
            updateCalls := [(issue.internalId,
              Sync.buildUpdates fe.ticket name issue newStateId)] }) := by
  unfold Sync.pushSingleTicket
  simp only [hfind, hread, hstate, hissue, hvalid]
  constructor
  · rintro ⟨hs, ht, hd⟩
    have hupd : Sync.buildUpdates fe.ticket name issue newStateId =
        { stateId := none, title := none, description := none } := by
      unfold Sync.buildUpdates
      have h1 : (issue.stateId == newStateId) = true := by simp [hs]
      simp only [h1, Bool.not_true, Bool.false_eq_true, if_false]
      cases hnt : Sync.newTitleFor fe.ticket name with
      | none =>
        simp only []
        cases hc : (fe.ticket.content == "") with
        | true => simp
        | false =>
          have hc2 : fe.ticket.content ≠ "" := by simpa using hc
          have hd2 : (issue.description == some fe.ticket.content) = true := by
            simp [hd hc2]
          simp [hd2]
      | some t =>
        have ht2 : (issue.title == t) = true := by simp [ht t hnt]
        simp only [ht2, Bool.not_true, Bool.false_eq_true, if_false]
        cases hc : (fe.ticket.content == "") with
        | true => simp
        | false =>
          have hc2 : fe.ticket.content ≠ "" := by simpa using hc
          have hd2 : (issue.description == some fe.ticket.content) = true := by
            simp [hd hc2]
          simp [hd2]
    rw [hupd]
    rfl
  · intro hne
    simp [hne]

/-- C10: the frame property of pushSingleTicket - when no updateIssue
call was made (the no-op case) the tree, and in particular the file's
stored updated_at, is exactly unchanged; the file is rewritten with a
refreshed updated_at only when an update call was made. -/
theorem C10_noop_frame (client : Sync.Client) (config : Sync.Config) (fsx : Sync.FS)
    (now : Int) (ticketId : String) (pr : Sync.PushResult)
    (h : Sync.pushSingleTicket client config fsx now ticketId = Except.ok pr) :
    (pr.updateCalls = [] → pr.fs = fsx) ∧
    (pr.updateCalls ≠ [] → ∃ folder name fe,
      Sync.findTicketFile fsx ticketId = some (folder, name) ∧
      Sync.readFileFS fsx folder name = some fe ∧
      pr.fs = Sync.writeFileFS fsx folder name
        (Sync.refreshUpdatedAt fe.ticket now) now) := by
  unfold Sync.pushSingleTicket at h
  split at h
  · simp at h
  · rename_i p folder name hfind
    split at h
    · simp at h
    · rename_i fe hread
      split at h
      · simp at h
      · split at h
        · simp at h
        · rename_i newStateId hstate
          split at h
          · simp at h
          · rename_i issue hissue
            split at h
            · cases h
              exact ⟨fun _ => rfl, fun hc => absurd rfl hc⟩
            · cases h
              refine ⟨fun hc => by simp at hc, fun _ => ?_⟩
              exact ⟨folder, name, fe, hfind, hread, rfl⟩

/-- A two-state status mapping used in the concrete scenarios. -/
def config0 : Sync.Config :=
  { statusMapping :=
      [("Todo", { id := "st1", folder := "todo" }),
       ("In Progress", { id := "st2", folder := "in-progress" })] }

/-- A decoded ticket that exactly matches its remote issue. -/
def ticket0 : Sync.TicketFile :=
  { frontmatter :=
      { linear_id := "PAP-10", title := "Fix The Thing", status := "In Progress",
        assignee := none, labels := [], priority := 2, due_date := none,
        url := "https://linear.app/t/PAP-10", created_at := 1000, updated_at := 2000 },
    content := "Body text", comments := [] }

/-- A tree holding ticket0 in the in-progress folder. -/
def fs0 : Sync.FS :=
  [{ dirName := "todo", files := [] },
   { dirName := "in-progress",
     files := [{ name := "PAP-10-fix-the-thing.md", ticket := ticket0, mtime := 2000 }] }]

/-- The remote issue matching ticket0 field for field. -/
def issue0 : Sync.Issue :=
  { internalId := "uuid-10", identifier := "PAP-10", title := "Fix The Thing",
    description := some "Body text", stateId := "st2", stateName := "In Progress",
    parent := none, assignee := none, labels := [], priority := 2,
    dueDate := none, url := "https://linear.app/t/PAP-10",
    createdAt := 1000, updatedAt := 2000, comments := [] }

def client0 : Sync.Client := { issues := [issue0] }

/-- A decoded ticket whose title was edited locally. -/
def ticket1 : Sync.TicketFile :=
  { frontmatter :=
      { linear_id := "PAP-11", title := "New Title", status := "In Progress",
        assignee := none, labels := [], priority := 2, due_date := none,
        url := "https://linear.app/t/PAP-11", created_at := 1000, updated_at := 2000 },
    content := "Body text", comments := [] }

def fs1 : Sync.FS :=
  [{ dirName := "in-progress",
     files := [{ name := "PAP-11-new-title.md", ticket := ticket1, mtime := 2500 }] }]

/-- The remote issue for ticket1, still carrying the old title. -/
def issue1 : Sync.Issue :=
  { internalId := "uuid-11", identifier := "PAP-11", title := "Old Title",
    description := some "Body text", stateId := "st2", stateName := "In Progress",
    parent := none, assignee := none, labels := [], priority := 2,
    dueDate := none, url := "https://linear.app/t/PAP-11",
    createdAt := 1000, updatedAt := 2000, comments := [] }

def client1 : Sync.Client := { issues := [issue1] }

/-- Witness for C4: pushing the locally retitled ticket makes exactly
one update call (carrying only the title) and rewrites the file with
updated_at set to now. -/
theorem C4_push_diff_witness :
    Sync.pushSingleTicket client1 config0 fs1 3000 "PAP-11" =
      Except.ok
        { fs := Sync.writeFileFS fs1 "in-progress" "PAP-11-new-title.md"
            (Sync.refreshUpdatedAt ticket1 3000) 3000,
          updateCalls := [("uuid-11",
            Sync.buildUpdates ticket1 "PAP-11-new-title.md" issue1 "st2")] } :=
  (C4_push_diff client1 config0 fs1 3000 "PAP-11" "in-progress" "PAP-11-new-title.md"
    { name := "PAP-11-new-title.md", ticket := ticket1, mtime := 2500 } "st2" issue1
    (by decide) (by decide) (by decide) (by decide) (by decide)).2 (by decide)

/-- Witness for C10: the no-op push of the already-synchronized
ticket0 leaves the tree exactly unchanged. -/
theorem C10_noop_frame_witness :
    Sync.pushSingleTicket client0 config0 fs0 2500 "PAP-10" =
      Except.ok { fs := fs0, updateCalls := [] } ∧
    ({ fs := fs0, updateCalls := [] } : Sync.PushResult).fs = fs0 :=
  ⟨by decide,
   (C10_noop_frame client0 config0 fs0 2500 "PAP-10"
      { fs := fs0, updateCalls := [] } (by decide)).1 rfl⟩

/-- C1 counterexample: the schedule in which the pull's delete+write
segment runs between the push's file read and the push's file write
for the same id is reachable in the daemon model (no lock makes any
task non-ready), and it overlaps the two operations' file accesses -
so a pull and a push for the same id do not exclude each other and
the second request does not block until the first completes. -/
theorem C1_counterexample :
    Concurrency.Reach [Concurrency.pushTask "PAP-1", Concurrency.pullTask "PAP-1"]
      [[], []] Concurrency.overlapTrace ∧
    Concurrency.Overlap Concurrency.overlapTrace := by
  constructor
  · have h0 : Concurrency.Reach
        [Concurrency.pushTask "PAP-1", Concurrency.pullTask "PAP-1"]
        [Concurrency.pushTask "PAP-1", Concurrency.pullTask "PAP-1"] [] :=
      Concurrency.Reach.refl
    have h1 := @Concurrency.Reach.step
      [Concurrency.pushTask "PAP-1", Concurrency.pullTask "PAP-1"]
      [Concurrency.pushTask "PAP-1", Concurrency.pullTask "PAP-1"] [] 0
      [Concurrency.FileOp.fsRead "PAP-1"]
      [[], [Concurrency.FileOp.fsWrite "PAP-1"]] h0 rfl
    have h2 := @Concurrency.Reach.step
      [Concurrency.pushTask "PAP-1", Concurrency.pullTask "PAP-1"]
      [[[], [Concurrency.FileOp.fsWrite "PAP-1"]], Concurrency.pullTask "PAP-1"]
      [(0, [Concurrency.FileOp.fsRead "PAP-1"])] 1 []
      [[Concurrency.FileOp.fsDelete "PAP-1", Concurrency.FileOp.fsWrite "PAP-1"]] h1 rfl
    have h3 := @Concurrency.Reach.step
      [Concurrency.pushTask "PAP-1", Concurrency.pullTask "PAP-1"]
      [[[], [Concurrency.FileOp.fsWrite "PAP-1"]],
       [[Concurrency.FileOp.fsDelete "PAP-1", Concurrency.FileOp.fsWrite "PAP-1"]]]
      [(0, [Concurrency.FileOp.fsRead "PAP-1"]), (1, [])] 1
      [Concurrency.FileOp.fsDelete "PAP-1", Concurrency.FileOp.fsWrite "PAP-1"] [] h2 rfl
    have h4 := @Concurrency.Reach.step
      [Concurrency.pushTask "PAP-1", Concurrency.pullTask "PAP-1"]
      [[[], [Concurrency.FileOp.fsWrite "PAP-1"]], []]
      [(0, [Concurrency.FileOp.fsRead "PAP-1"]), (1, []),
       (1, [Concurrency.FileOp.fsDelete "PAP-1", Concurrency.FileOp.fsWrite "PAP-1"])] 0 []
      [[Concurrency.FileOp.fsWrite "PAP-1"]] h3 rfl
    have h5 := @Concurrency.Reach.step
      [Concurrency.pushTask "PAP-1", Concurrency.pullTask "PAP-1"]
      [[[Concurrency.FileOp.fsWrite "PAP-1"]], []]
      [(0, [Concurrency.FileOp.fsRead "PAP-1"]), (1, []),
       (1, [Concurrency.FileOp.fsDelete "PAP-1", Concurrency.FileOp.fsWrite "PAP-1"]),
       (0, [])] 0
      [Concurrency.FileOp.fsWrite "PAP-1"] [] h4 rfl
    exact h5
  · unfold Concurrency.Overlap
    decide

/-- Helper for C1: from any split of two task bodies into an already
executed trace and pending remainders, the remaining segments can be
consumed in exactly the order the trace prescribes - there is no
condition under which a task with pending segments must wait. -/
theorem reach_merge (A B : Concurrency.ConcTask) :
    ∀ (tr : List (Nat × Concurrency.Seg)) (remA remB : Concurrency.ConcTask),
    Concurrency.projTask 0 tr ++ remA = A →
    Concurrency.projTask 1 tr ++ remB = B →
    (∀ e ∈ tr, e.1 = 0 ∨ e.1 = 1) →
    Concurrency.Reach [A, B] [remA, remB] tr := by
  intro tr
  induction tr using List.reverseRecOn with
  | nil =>
    intro remA remB hA hB _
    simp only [Concurrency.projTask, List.filter_nil, List.map_nil, List.nil_append] at hA hB
    subst hA
    subst hB
    exact Concurrency.Reach.refl
  | append_singleton tr e ih =>
    intro remA remB hA hB hidx
    obtain ⟨i, seg⟩ := e
    have hi : i = 0 ∨ i = 1 := hidx (i, seg) (by simp)
    rcases hi with rfl | rfl
    · have hproj0 : Concurrency.projTask 0 (tr ++ [(0, seg)]) =
          Concurrency.projTask 0 tr ++ [seg] := by
        simp [Concurrency.projTask, List.filter_append]
      have hproj1 : Concurrency.projTask 1 (tr ++ [(0, seg)]) =
          Concurrency.projTask 1 tr := by
        simp [Concurrency.projTask, List.filter_append]
      rw [hproj0] at hA
      rw [hproj1] at hB
      have hA2 : Concurrency.projTask 0 tr ++ (seg :: remA) = A := by
        rw [← hA]
        simp
      have hrec := ih (seg :: remA) remB hA2 hB
        (fun x hx => hidx x (List.mem_append_left _ hx))
      exact @Concurrency.Reach.step [A, B] [seg :: remA, remB] tr 0 seg remA hrec rfl
    · have hproj0 : Concurrency.projTask 0 (tr ++ [(1, seg)]) =
          Concurrency.projTask 0 tr := by
        simp [Concurrency.projTask, List.filter_append]
      have hproj1 : Concurrency.projTask 1 (tr ++ [(1, seg)]) =
          Concurrency.projTask 1 tr ++ [seg] := by
        simp [Concurrency.projTask, List.filter_append]
      rw [hproj0] at hA
      rw [hproj1] at hB
      have hB2 : Concurrency.projTask 1 tr ++ (seg :: remB) = B := by
        rw [← hB]
        simp
      have hrec := ih remA (seg :: remB) hA hB2
        (fun x hx => hidx x (List.mem_append_left _ hx))
      exact @Concurrency.Reach.step [A, B] [remA, seg :: remB] tr 1 seg remB hrec rfl

/-- C1 (amended): the daemon holds no per-entity lock, so the push
and the pull for one id are not mutually excluded: every interleaving
of their suspension-separated atomic segments is a reachable
event-loop schedule (only the synchronous segments themselves are
atomic); in particular the second operation for a busy id proceeds
without queueing behind the first. -/
theorem C1_no_lock (id : String) (tr : List (Nat × Concurrency.Seg))
    (hA : Concurrency.projTask 0 tr = Concurrency.pushTask id)
    (hB : Concurrency.projTask 1 tr = Concurrency.pullTask id)
    (hidx : ∀ e ∈ tr, e.1 = 0 ∨ e.1 = 1) :
    Concurrency.Reach [Concurrency.pushTask id, Concurrency.pullTask id]
      [[], []] tr :=
  reach_merge (Concurrency.pushTask id) (Concurrency.pullTask id) tr [] []
    (by rw [List.append_nil]; exact hA) (by rw [List.append_nil]; exact hB) hidx

/-- Witness for the amended C1: the overlapping schedule is an
interleaving of the two tasks and is reachable. -/
theorem C1_no_lock_witness :
    Concurrency.Reach
      [Concurrency.pushTask "PAP-1", Concurrency.pullTask "PAP-1"]
      [[], []] Concurrency.overlapTrace :=
  C1_no_lock "PAP-1" Concurrency.overlapTrace (by decide) (by decide) (by decide)

/-- fs.existsSync for a concrete path of the tree. -/
def Sync.pathExistsB (fsx : Sync.FS) (folder name : String) : Bool :=
  fsx.any (fun fl => fl.dirName == folder && fl.files.any (fun x => x.name == name))

/-- Helper: find-then-project equals head of filter-then-project, in
the shape used by findTicketFile on one folder. -/
theorem findInFolder_head (tid d : String) (files : List Sync.FileEnt) :
    (match files.find? (fun f => Sync.fileMatches tid f.name) with
     | some f => some (d, f.name)
     | none => none) =
    ((files.filter (fun f => Sync.fileMatches tid f.name)).map
      (fun f => (d, f.name))).head? := by
  induction files with
  | nil => rfl
  | cons x xs ih =>
    cases hp : Sync.fileMatches tid x.name <;>
      simp [List.find?_cons, List.filter_cons, hp, ih]

/-- Helper for C2: findTicketFile returns the head of the tree-wide
matching path list. -/
theorem findTicketFile_eq_head (fsx : Sync.FS) (tid : String) :
    Sync.findTicketFile fsx tid = (Sync.matchingPaths fsx tid).head? := by
  induction fsx with
  | nil => rfl
  | cons fl rest ih =>
    simp only [Sync.findTicketFile, Sync.matchingPaths, List.findSome?_cons,
      List.flatMap_cons]
    rw [findInFolder_head tid fl.dirName fl.files]
    cases hh : ((fl.files.filter (fun f => Sync.fileMatches tid f.name)).map
        (fun f => (fl.dirName, f.name))).head? with
    | none =>
      have : (fl.files.filter (fun f => Sync.fileMatches tid f.name)).map
          (fun f => (fl.dirName, f.name)) = [] := by
        cases hcs : (fl.files.filter (fun f => Sync.fileMatches tid f.name)).map
            (fun f => (fl.dirName, f.name)) with
        | nil => rfl
        | cons a as => rw [hcs] at hh; simp at hh
      rw [this]
      simpa [Sync.findTicketFile, Sync.matchingPaths] using ih
    | some a =>
      cases hcs : (fl.files.filter (fun f => Sync.fileMatches tid f.name)).map
          (fun f => (fl.dirName, f.name)) with
      | nil => rw [hcs] at hh; simp at hh
      | cons b bs =>
        rw [hcs] at hh
        simp at hh
        subst hh
        simp

/-- Helper for C2: the matching paths of one folder after removing the
entries named n, as a filter on its original matching paths. -/
theorem folderPart_erase (tid d f n : String) (files : List Sync.FileEnt) :
    (((if (d == f) = true then files.filter (fun x => !(x.name == n)) else files).filter
        (fun x => Sync.fileMatches tid x.name)).map (fun x => (d, x.name))) =
      ((files.filter (fun x => Sync.fileMatches tid x.name)).map
        (fun x => (d, x.name))).filter (fun p => !(p.1 == f && p.2 == n)) := by
  cases hd : (d == f) with
  | false =>
    simp only [Bool.false_eq_true, if_false]
    symm
    apply List.filter_eq_self.mpr
    intro p hp
    obtain ⟨x, _, rfl⟩ := List.mem_map.mp hp
    simp [hd]
  | true =>
    simp only [if_true]
    rw [List.filter_map, List.filter_comm]
    congr 1
    apply List.filter_congr
    intro a _
    simp [hd]

/-- Helper for C2: erasing one path filters it out of the tree-wide
matching path list. -/
theorem matchingPaths_eraseFileFS (tid f n : String) : ∀ fsx : Sync.FS,
    Sync.matchingPaths (Sync.eraseFileFS fsx f n) tid =
      (Sync.matchingPaths fsx tid).filter (fun p => !(p.1 == f && p.2 == n)) := by
  intro fsx
  induction fsx with
  | nil => rfl
  | cons fl rest ih =>
    simp only [Sync.eraseFileFS, List.map_cons] at ih ⊢
    simp only [Sync.matchingPaths, List.flatMap_cons, List.filter_append] at ih ⊢
    rw [ih]
    congr 1
    have h := folderPart_erase tid fl.dirName f n fl.files
    cases hd : (fl.dirName == f) <;> simp only [hd] at h ⊢ <;> simpa using h


/-- Helper for C2: writing a matching file into a tree with no
matching paths (folder names unique) makes its path the unique
matching path. -/
theorem matchingPaths_writeFileFS_of_nil (tid f n : String) (t : Sync.TicketFile)
    (mt : Int) : ∀ fsx : Sync.FS,
    Sync.matchingPaths fsx tid = [] →
    Sync.fileMatches tid n = true →
    (fsx.map Sync.Folder.dirName).Nodup →
    Sync.matchingPaths (Sync.writeFileFS fsx f n t mt) tid = [(f, n)] := by
  intro fsx
  induction fsx with
  | nil =>
    intro _ hfm _
    simp [Sync.writeFileFS, Sync.matchingPaths, hfm]
  | cons fl rest ih =>
    intro hmat hfm hnd
    have hpart := hmat
    simp only [Sync.matchingPaths, List.flatMap_cons, List.append_eq_nil] at hpart
    obtain ⟨hpfl, hprest⟩ := hpart
    have hprest2 : Sync.matchingPaths rest tid = [] := by
      simpa [Sync.matchingPaths] using hprest
    rw [List.map_cons] at hnd
    have hndc := List.nodup_cons.mp hnd
    have hnd1 : fl.dirName ∉ rest.map Sync.Folder.dirName := hndc.1
    have hnd2 : (rest.map Sync.Folder.dirName).Nodup := hndc.2
    cases hd : (fl.dirName == f) with
    | true =>
      have hdf : fl.dirName = f := by simpa using hd
      have hrestid : ∀ fl2 ∈ rest, (fl2.dirName == f) = false := by
        intro fl2 h2
        cases hc : (fl2.dirName == f)
        · rfl
        · exfalso
          have hfl2 : fl2.dirName = f := by simpa using hc
          apply hnd1
          rw [hdf, ← hfl2]
          exact List.mem_map_of_mem Sync.Folder.dirName h2
      have hmapid : rest.map (fun x =>
          if (x.dirName == f) = true
          then { x with files := Sync.upsertFile x.files n t mt } else x) = rest := by
        calc rest.map (fun x =>
              if (x.dirName == f) = true
              then { x with files := Sync.upsertFile x.files n t mt } else x)
            = rest.map id := by
              apply List.map_congr_left
              intro a ha
              simp [hrestid a ha]
          _ = rest := List.map_id rest
      have hnofile : (fl.files.any (fun x => x.name == n)) = false := by
        cases hc : fl.files.any (fun x => x.name == n)
        · rfl
        · exfalso
          obtain ⟨x, hx, hxn⟩ := List.any_eq_true.mp hc
          have hxn2 : x.name = n := by simpa using hxn
          have hxm : Sync.fileMatches tid x.name = true := by rw [hxn2]; exact hfm
          have hmem : (fl.dirName, x.name) ∈
              (fl.files.filter (fun y => Sync.fileMatches tid y.name)).map
                (fun y => (fl.dirName, y.name)) :=
            List.mem_map_of_mem _ (List.mem_filter.mpr ⟨hx, hxm⟩)
          rw [hpfl] at hmem
          simp at hmem
      have hany : ((fl :: rest).any (fun x => x.dirName == f)) = true := by
        simp [List.any_cons, hd]
      have hwrite : Sync.writeFileFS (fl :: rest) f n t mt =
          { dirName := fl.dirName, files := Sync.upsertFile fl.files n t mt } :: rest := by
        simp only [Sync.writeFileFS, hany, if_true, List.map_cons, hd]
        rw [hmapid]
      have hupsert : Sync.upsertFile fl.files n t mt =
          fl.files ++ [{ name := n, ticket := t, mtime := mt }] := by
        simp only [Sync.upsertFile, hnofile, Bool.false_eq_true, if_false]
      rw [hwrite, hupsert]
      simp only [Sync.matchingPaths, List.flatMap_cons, List.filter_append,
        List.map_append]
      rw [hpfl, hprest]
      simp [hfm, hdf]
    | false =>
      have hanyc : ((fl :: rest).any (fun x => x.dirName == f)) =
          (rest.any (fun x => x.dirName == f)) := by
        simp [List.any_cons, hd]
      cases hex : (rest.any (fun x => x.dirName == f)) with
      | true =>
        have hwrite : Sync.writeFileFS (fl :: rest) f n t mt =
            fl :: rest.map (fun x =>
              if (x.dirName == f) = true
              then { x with files := Sync.upsertFile x.files n t mt } else x) := by
          simp only [Sync.writeFileFS, hanyc, hex, if_true, List.map_cons, hd,
            Bool.false_eq_true, if_false]
        have hwrest : Sync.writeFileFS rest f n t mt = rest.map (fun x =>
            if (x.dirName == f) = true
            then { x with files := Sync.upsertFile x.files n t mt } else x) := by
          simp only [Sync.writeFileFS, hex, if_true]
        have hih := ih hprest2 hfm hnd2
        rw [hwrest] at hih
        rw [hwrite]
        simp only [Sync.matchingPaths, List.flatMap_cons]
        rw [hpfl]
        simpa [Sync.matchingPaths] using hih
      | false =>
        have hwrite : Sync.writeFileFS (fl :: rest) f n t mt =
            fl :: (rest ++ [{ dirName := f, files := [{ name := n, ticket := t, mtime := mt }] }]) := by
          simp only [Sync.writeFileFS, hanyc, hex, Bool.false_eq_true, if_false,
            List.cons_append]
        have hwrest : Sync.writeFileFS rest f n t mt =
            rest ++ [{ dirName := f, files := [{ name := n, ticket := t, mtime := mt }] }] := by
          simp only [Sync.writeFileFS, hex, Bool.false_eq_true, if_false]
        have hih := ih hprest2 hfm hnd2
        rw [hwrest] at hih
        rw [hwrite]
        simp only [Sync.matchingPaths, List.flatMap_cons]
        rw [hpfl]
        simpa [Sync.matchingPaths] using hih

/-- Helper for C2: every tree-wide matching path carries a matching
file name. -/
theorem fileMatches_of_mem_matchingPaths (fsx : Sync.FS) (tid : String)
    (p : String × String) (h : p ∈ Sync.matchingPaths fsx tid) :
    Sync.fileMatches tid p.2 = true := by
  simp only [Sync.matchingPaths, List.mem_flatMap] at h
  obtain ⟨fl, _, hp⟩ := h
  obtain ⟨x, hx, rfl⟩ := List.mem_map.mp hp
  exact (List.mem_filter.mp hx).2

/-- Helper for C2: an existing path whose name matches the id is among
the tree-wide matching paths. -/
theorem mem_matchingPaths_of_pathExists (fsx : Sync.FS) (tid f n : String)
    (hex : Sync.pathExistsB fsx f n = true)
    (hfm : Sync.fileMatches tid n = true) :
    (f, n) ∈ Sync.matchingPaths fsx tid := by
  simp only [Sync.pathExistsB, List.any_eq_true] at hex
  obtain ⟨fl, hfl, hflx⟩ := hex
  have hflx2 : fl.dirName = f ∧ (fl.files.any fun x => x.name == n) = true := by
    simpa using hflx
  have hdn : fl.dirName = f := hflx2.1
  obtain ⟨x, hx, hxn⟩ := List.any_eq_true.mp hflx2.2
  have hxn2 : x.name = n := by simpa using hxn
  simp only [Sync.matchingPaths, List.mem_flatMap]
  refine ⟨fl, hfl, ?_⟩
  apply List.mem_map.mpr
  refine ⟨x, List.mem_filter.mpr ⟨hx, by rw [hxn2]; exact hfm⟩, ?_⟩
  rw [hxn2, hdn]

/-- Helper for C2: erasing a file does not change the folder names. -/
theorem eraseFileFS_map_dirName (f n : String) (fsx : Sync.FS) :
    (Sync.eraseFileFS fsx f n).map Sync.Folder.dirName =
      fsx.map Sync.Folder.dirName := by
  unfold Sync.eraseFileFS
  rw [List.map_map]
  apply List.map_congr_left
  intro a _
  cases hd : (a.dirName == f) <;> simp [hd, Function.comp]

/-- C2: pulling an entity whose remote state maps to a new folder,
when the tree holds exactly one file for that id at a different
folder, deletes the old file and writes exactly one file at the new
location: afterwards the matching paths for the id are exactly the
new path, and the old path no longer exists. -/
theorem C2_pull_move_unique (client : Sync.Client) (config : Sync.Config)
    (fsx : Sync.FS) (now : Int) (ticketId : String) (issue : Sync.Issue)
    (oldF oldN newFolder : String)
    (hiss : Sync.getIssue client ticketId = some issue)
    (hfold : Sync.findStatusFolder issue.stateName config = some newFolder)
    (hmat : Sync.matchingPaths fsx issue.identifier = [(oldF, oldN)])
    (hdiff : oldF ≠ newFolder)
    (hfm : Sync.fileMatches issue.identifier
      (Sync.generateFilename issue.identifier issue.title issue.parent) = true)
    (hnd : (fsx.map Sync.Folder.dirName).Nodup) :
    Sync.pullSingleTicket client config fsx now ticketId =
      Except.ok (Sync.writeFileFS (Sync.eraseFileFS fsx oldF oldN) newFolder
          (Sync.generateFilename issue.identifier issue.title issue.parent)
          (Sync.convertLinearIssueToTicket issue) now,
        newFolder,
        Sync.generateFilename issue.identifier issue.title issue.parent) ∧
    Sync.matchingPaths
      (Sync.writeFileFS (Sync.eraseFileFS fsx oldF oldN) newFolder
        (Sync.generateFilename issue.identifier issue.title issue.parent)
        (Sync.convertLinearIssueToTicket issue) now) issue.identifier =
      [(newFolder,
        Sync.generateFilename issue.identifier issue.title issue.parent)] ∧
    Sync.pathExistsB
      (Sync.writeFileFS (Sync.eraseFileFS fsx oldF oldN) newFolder
        (Sync.generateFilename issue.identifier issue.title issue.parent)
        (Sync.convertLinearIssueToTicket issue) now) oldF oldN = false := by
  have hfind : Sync.findTicketFile fsx issue.identifier = some (oldF, oldN) := by
    rw [findTicketFile_eq_head, hmat]
    rfl
  have hbeq : (((oldF, oldN) : String × String) ==
      (newFolder, Sync.generateFilename issue.identifier issue.title issue.parent)) =
      false := by
    apply beq_eq_false_iff_ne.mpr
    intro hc
    exact hdiff (congrArg Prod.fst hc)
  have herased : Sync.matchingPaths (Sync.eraseFileFS fsx oldF oldN)
      issue.identifier = [] := by
    rw [matchingPaths_eraseFileFS, hmat]
    simp
  have hnd2 : ((Sync.eraseFileFS fsx oldF oldN).map Sync.Folder.dirName).Nodup := by
    rw [eraseFileFS_map_dirName]
    exact hnd
  have hnew := matchingPaths_writeFileFS_of_nil issue.identifier newFolder
    (Sync.generateFilename issue.identifier issue.title issue.parent)
    (Sync.convertLinearIssueToTicket issue) now
    (Sync.eraseFileFS fsx oldF oldN) herased hfm hnd2
  refine ⟨?_, hnew, ?_⟩
  · unfold Sync.pullSingleTicket
    simp only [hiss, hfind, hfold, hbeq, Bool.not_false, if_true]
  · cases hc : Sync.pathExistsB
        (Sync.writeFileFS (Sync.eraseFileFS fsx oldF oldN) newFolder
          (Sync.generateFilename issue.identifier issue.title issue.parent)
          (Sync.convertLinearIssueToTicket issue) now) oldF oldN with
    | false => rfl
    | true =>
      exfalso
      have hfmold : Sync.fileMatches issue.identifier oldN = true := by
        have hmemold : ((oldF, oldN) : String × String) ∈
            Sync.matchingPaths fsx issue.identifier := by
          rw [hmat]
          simp
        exact fileMatches_of_mem_matchingPaths fsx issue.identifier (oldF, oldN) hmemold
      have hmem := mem_matchingPaths_of_pathExists _ issue.identifier oldF oldN hc hfmold
      rw [hnew] at hmem
      simp at hmem
      exact hdiff hmem.1

/-- Helper: a prefix whose characters all satisfy p, followed by a
failing character, is exactly what takeWhile keeps. -/
theorem takeWhile_dropWhile_app {p : Char → Bool} :
    ∀ (xs : List Char) (y : Char) (ys : List Char),
    (∀ x ∈ xs, p x = true) → p y = false →
    (xs ++ y :: ys).takeWhile p = xs ∧ (xs ++ y :: ys).dropWhile p = y :: ys := by
  intro xs y ys hall hy
  induction xs with
  | nil => simp [List.takeWhile_cons, List.dropWhile_cons, hy]
  | cons a as ih =>
    have ha : p a = true := hall a (by simp)
    have ih2 := ih (fun x hx => hall x (by simp [hx]))
    simp [List.takeWhile_cons, List.dropWhile_cons, ha, ih2.1, ih2.2]

/-- Helper: a list starts with itself followed by anything. -/
theorem listHasPre_append_self : ∀ (p t : List Char), listHasPre p (p ++ t) = true := by
  intro p
  induction p with
  | nil => intro t; rfl
  | cons c cs ih => intro t; simp [listHasPre, ih]

/-- Helper for C2: for a well-formed Linear id (uppercase letters,
a hyphen, digits) and no parent, the generated filename matches the
id under findTicketFile's test: it ends in .md and the extracted id
equals the original. -/
theorem fileMatches_generateFilename_regular (id title : String)
    (L D : List Char)
    (hid : id.data = L ++ '-' :: D)
    (hL : L ≠ []) (hD : D ≠ [])
    (hLa : ∀ c ∈ L, Sync.isUpperAZ c = true)
    (hDa : ∀ c ∈ D, Sync.isDigit09 c = true) :
    Sync.fileMatches id (Sync.generateFilename id title none) = true := by
  have hdata : (Sync.generateFilename id title none).data =
      L ++ '-' :: (D ++ '-' :: ((Sync.sanitizeTitle title).data ++ ['.', 'm', 'd'])) := by
    simp only [Sync.generateFilename, String.data_append, hid]
    simp
  have hends : strEndsWith (Sync.generateFilename id title none) ".md" = true := by
    unfold strEndsWith
    rw [hdata]
    have : (L ++ '-' :: (D ++ '-' :: ((Sync.sanitizeTitle title).data ++ ['.', 'm', 'd']))).reverse =
        ['d', 'm', '.'] ++ ((Sync.sanitizeTitle title).data.reverse ++
          ('-' :: D.reverse ++ ('-' :: L.reverse))) := by
      simp
    rw [this]
    exact listHasPre_append_self _ _
  have htake1 := takeWhile_dropWhile_app
    (p := Sync.isUpperAZ) L '-'
    (D ++ '-' :: ((Sync.sanitizeTitle title).data ++ ['.', 'm', 'd'])) hLa (by decide)
  have htake2 := takeWhile_dropWhile_app
    (p := Sync.isDigit09) D '-'
    ((Sync.sanitizeTitle title).data ++ ['.', 'm', 'd']) hDa (by decide)
  have hextract : Sync.extractLinearIdFromFilename
      (Sync.generateFilename id title none) = some id := by
    unfold Sync.extractLinearIdFromFilename
    dsimp only
    rw [hdata, htake1.1, htake1.2]
    simp only [List.isEmpty_iff, hL, if_false]
    rw [htake2.1, htake2.2]
    simp only [List.isEmpty_iff, hD, if_false]
    have hmk : String.mk (L ++ '-' :: D) = id := by
      rw [← hid]
    simp [hmk]
  unfold Sync.fileMatches
  rw [hends, hextract]
  simp

/-- A ticket whose remote state moved to In Progress while its file
still sits in the todo folder. -/
def ticket2 : Sync.TicketFile :=
  { frontmatter :=
      { linear_id := "PAP-12", title := "Move Me", status := "Todo",
        assignee := none, labels := [], priority := 3, due_date := none,
        url := "https://linear.app/t/PAP-12", created_at := 1000, updated_at := 2000 },
    content := "Move body", comments := [] }

def fsC2 : Sync.FS :=
  [{ dirName := "todo",
     files := [{ name := "PAP-12-move-me.md", ticket := ticket2, mtime := 2000 }] },
   { dirName := "in-progress", files := [] }]

def issue2 : Sync.Issue :=
  { internalId := "uuid-12", identifier := "PAP-12", title := "Move Me",
    description := some "Move body", stateId := "st2", stateName := "In Progress",
    parent := none, assignee := none, labels := [], priority := 3,
    dueDate := none, url := "https://linear.app/t/PAP-12",
    createdAt := 1000, updatedAt := 4000, comments := [] }

def client2 : Sync.Client := { issues := [issue2] }

/-- Witness for C2: after pulling the moved ticket, the only matching
path for PAP-12 is the new in-progress location. -/
theorem C2_pull_move_unique_witness :
    Sync.matchingPaths
      (Sync.writeFileFS (Sync.eraseFileFS fsC2 "todo" "PAP-12-move-me.md")
        "in-progress" (Sync.generateFilename "PAP-12" "Move Me" none)
        (Sync.convertLinearIssueToTicket issue2) 5000) "PAP-12" =
      [("in-progress", Sync.generateFilename "PAP-12" "Move Me" none)] :=
  (C2_pull_move_unique client2 config0 fsC2 5000 "PAP-12" issue2 "todo"
    "PAP-12-move-me.md" "in-progress" (by decide) (by decide) (by decide)
    (by decide) (by decide) (by decide)).2.1

/-- Side conditions of one push-all run, checked along the actual
threaded tree: every listed file is readable when visited, every
attempted push succeeds, and a push leaves the files still to be
visited unchanged.  (One entity's failure never aborts the loop in
the source; this predicate carves out the runs where the claim's
only-successful-pushes reading applies.) -/
def pushAllClean (client : Sync.Client) (config : Sync.Config) (now : Int) :
    List (String × String) → Sync.FS → Bool
  | [], _ => true
  | p :: rest, fsx =>
    match Sync.readFileFS fsx p.1 p.2 with
    | none => false
    | some fe =>
      if fe.mtime > fe.ticket.frontmatter.updated_at then
        match Sync.pushSingleTicket client config fsx now
            fe.ticket.frontmatter.linear_id with
        | Except.ok pr =>
          (decide (∀ q ∈ rest, Sync.readFileFS pr.fs q.1 q.2 =
            Sync.readFileFS fsx q.1 q.2)) &&
          pushAllClean client config now rest pr.fs
        | Except.error _ => false
      else pushAllClean client config now rest fsx

/-- The specification's push-worthiness gate, stated from the spec's
words: a file is pushed exactly when its filesystem mtime is strictly
newer than the updated_at stored in its own frontmatter. -/
def specTimestampGate (fsx : Sync.FS) (p : String × String) : Sync.PushOutcome :=
  match Sync.readFileFS fsx p.1 p.2 with
  | some fe =>
    if fe.mtime > fe.ticket.frontmatter.updated_at
    then Sync.PushOutcome.pushed else Sync.PushOutcome.skipped
  | none => Sync.PushOutcome.errored

/-- Helper for C3: along a clean run, the loop realizes exactly the
spec gate (relative to the tree the listing was taken from). -/
theorem pushAllGo_gate (client : Sync.Client) (config : Sync.Config) (now : Int)
    (fs0 : Sync.FS) :
    ∀ (paths : List (String × String)) (fsx : Sync.FS),
    (∀ q ∈ paths, Sync.readFileFS fsx q.1 q.2 = Sync.readFileFS fs0 q.1 q.2) →
    pushAllClean client config now paths fsx = true →
    (Sync.pushAllGo client config now paths fsx).outcomes =
      paths.map (specTimestampGate fs0) := by
  intro paths
  induction paths with
  | nil => intro fsx _ _; rfl
  | cons p rest ih =>
    obtain ⟨folder, name⟩ := p
    intro fsx hagree hclean
    have hp : Sync.readFileFS fsx folder name = Sync.readFileFS fs0 folder name :=
      hagree (folder, name) (by simp)
    have hclean2 := hclean
    simp only [pushAllClean] at hclean2
    cases hread : Sync.readFileFS fsx folder name with
    | none => rw [hread] at hclean2; simp at hclean2
    | some fe =>
      rw [hread] at hclean2
      dsimp only at hclean2
      have hgate0 : specTimestampGate fs0 (folder, name) =
          (if fe.mtime > fe.ticket.frontmatter.updated_at
           then Sync.PushOutcome.pushed else Sync.PushOutcome.skipped) := by
        unfold specTimestampGate
        dsimp only
        rw [← hp, hread]
      by_cases hg : fe.mtime > fe.ticket.frontmatter.updated_at
      · rw [if_pos hg] at hclean2
        cases hpush : Sync.pushSingleTicket client config fsx now
            fe.ticket.frontmatter.linear_id with
        | error e => rw [hpush] at hclean2; simp at hclean2
        | ok pr =>
          rw [hpush] at hclean2
          have hclean3 : (∀ q ∈ rest, Sync.readFileFS pr.fs q.1 q.2 =
              Sync.readFileFS fsx q.1 q.2) ∧
              pushAllClean client config now rest pr.fs = true := by
            simpa using hclean2
          simp only [Sync.pushAllGo, hread, hpush, if_pos hg, List.map_cons]
          rw [hgate0, if_pos hg]
          rw [ih pr.fs (fun q hq => (hclean3.1 q hq).trans (hagree q (by simp [hq])))
            hclean3.2]
      · rw [if_neg hg] at hclean2
        simp only [Sync.pushAllGo, hread, if_neg hg, List.map_cons]
        rw [hgate0, if_neg hg]
        rw [ih fsx (fun q hq => hagree q (by simp [hq])) hclean2]

/-- Helper for C3: the three counters printed by pushAllTickets are
the occurrence counts of the corresponding outcomes. -/
theorem pushAllGo_counts (client : Sync.Client) (config : Sync.Config) (now : Int) :
    ∀ (paths : List (String × String)) (fsx : Sync.FS),
    (Sync.pushAllGo client config now paths fsx).pushedCount =
      ((Sync.pushAllGo client config now paths fsx).outcomes).count
        Sync.PushOutcome.pushed ∧
    (Sync.pushAllGo client config now paths fsx).skippedCount =
      ((Sync.pushAllGo client config now paths fsx).outcomes).count
        Sync.PushOutcome.skipped ∧
    (Sync.pushAllGo client config now paths fsx).errorCount =
      ((Sync.pushAllGo client config now paths fsx).outcomes).count
        Sync.PushOutcome.errored := by
  intro paths
  induction paths with
  | nil => intro fsx; simp [Sync.pushAllGo]
  | cons p rest ih =>
    obtain ⟨folder, name⟩ := p
    intro fsx
    simp only [Sync.pushAllGo]
    cases hread : Sync.readFileFS fsx folder name with
    | none => simp [List.count_cons, ih fsx]
    | some fe =>
      by_cases hg : fe.mtime > fe.ticket.frontmatter.updated_at
      · cases hpush : Sync.pushSingleTicket client config fsx now
            fe.ticket.frontmatter.linear_id with
        | ok pr => simp [hg, hpush, List.count_cons, ih pr.fs]
        | error e => simp [hg, hpush, List.count_cons, ih fsx]
      · simp [hg, List.count_cons, ih fsx]

/-- C3: over a clean push-all run, a file is pushed exactly when its
filesystem mtime is strictly newer than the updated_at stored in its
own frontmatter: the per-file outcomes equal the spec's timestamp
gate, and the pushed/skipped counters count exactly the gated files. -/
theorem C3_timestamp_gate (client : Sync.Client) (config : Sync.Config)
    (fsx : Sync.FS) (now : Int)
    (hclean : pushAllClean client config now (Sync.getAllTicketFiles fsx) fsx = true) :
    (Sync.pushAllTickets client config fsx now).outcomes =
      (Sync.getAllTicketFiles fsx).map (specTimestampGate fsx) ∧
    (Sync.pushAllTickets client config fsx now).pushedCount =
      ((Sync.getAllTicketFiles fsx).map (specTimestampGate fsx)).count
        Sync.PushOutcome.pushed ∧
    (Sync.pushAllTickets client config fsx now).skippedCount =
      ((Sync.getAllTicketFiles fsx).map (specTimestampGate fsx)).count
        Sync.PushOutcome.skipped := by
  have hout := pushAllGo_gate client config now fsx (Sync.getAllTicketFiles fsx) fsx
    (fun q _ => rfl) hclean
  have hcnt := pushAllGo_counts client config now (Sync.getAllTicketFiles fsx) fsx
  unfold Sync.pushAllTickets
  exact ⟨hout, by rw [hcnt.1, hout], by rw [hcnt.2.1, hout]⟩

/-- A ticket file older than its stored updated_at (already synced). -/
def ticket3a : Sync.TicketFile :=
  { frontmatter :=
      { linear_id := "PAP-20", title := "Stale One", status := "In Progress",
        assignee := none, labels := [], priority := 1, due_date := none,
        url := "https://linear.app/t/PAP-20", created_at := 1000, updated_at := 2000 },
    content := "Stale body", comments := [] }

/-- A ticket file edited after its stored updated_at. -/
def ticket3b : Sync.TicketFile :=
  { frontmatter :=
      { linear_id := "PAP-21", title := "Fresh One", status := "In Progress",
        assignee := none, labels := [], priority := 1, due_date := none,
        url := "https://linear.app/t/PAP-21", created_at := 1000, updated_at := 2000 },
    content := "Fresh body", comments := [] }

/-- One folder with the stale file (mtime 1500 < 2000) and the fresh
file (mtime 2500 > 2000). -/
def fsC3 : Sync.FS :=
  [{ dirName := "in-progress",
     files := [{ name := "PAP-20-stale-one.md", ticket := ticket3a, mtime := 1500 },
               { name := "PAP-21-fresh-one.md", ticket := ticket3b, mtime := 2500 }] }]

def issue3a : Sync.Issue :=
  { internalId := "uuid-20", identifier := "PAP-20", title := "Stale One",
    description := some "Stale body", stateId := "st2", stateName := "In Progress",
    parent := none, assignee := none, labels := [], priority := 1,
    dueDate := none, url := "https://linear.app/t/PAP-20",
    createdAt := 1000, updatedAt := 2000, comments := [] }

def issue3b : Sync.Issue :=
  { internalId := "uuid-21", identifier := "PAP-21", title := "Fresh One",
    description := some "Fresh body", stateId := "st2", stateName := "In Progress",
    parent := none, assignee := none, labels := [], priority := 1,
    dueDate := none, url := "https://linear.app/t/PAP-21",
    createdAt := 1000, updatedAt := 2000, comments := [] }

def client3 : Sync.Client := { issues := [issue3a, issue3b] }

/-- Witness for C3: of the two files, only the one with mtime newer
than its stored updated_at is pushed; the other is skipped. -/
theorem C3_timestamp_gate_witness :
    (Sync.pushAllTickets client3 config0 fsC3 3000).outcomes =
      [Sync.PushOutcome.skipped, Sync.PushOutcome.pushed] := by
  have h := (C3_timestamp_gate client3 config0 fsC3 3000 (by decide)).1
  rw [h]
  decide

/-- Helper for C9: the first-occurrence split finds the separator
exactly at the junction when no occurrence starts earlier. -/
theorem splitFirstSub_junction (sep : List Char) (hsep : sep ≠ []) :
    ∀ (xs ys : List Char), Codec.noEarly sep xs (sep ++ ys) = true →
    Codec.splitFirstSub sep (xs ++ (sep ++ ys)) = some (xs, ys) := by
  intro xs
  induction xs with
  | nil =>
    intro ys _
    cases sep with
    | nil => exact absurd rfl hsep
    | cons c cs =>
      have hpre : listHasPre (c :: cs) ((c :: cs) ++ ys) = true :=
        listHasPre_append_self (c :: cs) ys
      have hdrop : ((c :: cs) ++ ys).drop (c :: cs).length = ys :=
        List.drop_left (c :: cs) ys
      simp only [List.nil_append]
      rw [show (c :: cs) ++ ys = c :: (cs ++ ys) from rfl] at hpre hdrop ⊢
      simp only [Codec.splitFirstSub, hpre, if_true, hdrop]
  | cons x xs2 ih =>
    intro ys hne
    simp only [Codec.noEarly, Bool.and_eq_true, Bool.not_eq_true'] at hne
    obtain ⟨hhd, htl⟩ := hne
    have hrec := ih ys htl
    rw [show (x :: xs2) ++ (sep ++ ys) = x :: (xs2 ++ (sep ++ ys)) from rfl]
    simp only [Codec.splitFirstSub]
    rw [show x :: (xs2 ++ (sep ++ ys)) = (x :: xs2) ++ (sep ++ ys) from rfl] at hhd ⊢
    simp only [List.cons_append] at hhd ⊢
    rw [hhd]
    simp only [Bool.false_eq_true, if_false, hrec]

/-- Helper for C9: the JS split cuts exactly at the junction when no
occurrence of the separator starts earlier. -/
theorem splitAllSub_junction (sep : List Char) (hsep : sep.isEmpty = false) :
    ∀ (xs ys : List Char), Codec.noEarly sep xs (sep ++ ys) = true →
    Codec.splitAllSub sep (xs ++ (sep ++ ys)) = xs :: Codec.splitAllSub sep ys := by
  intro xs
  induction xs with
  | nil =>
    intro ys _
    cases hse : sep with
    | nil => rw [hse] at hsep; simp at hsep
    | cons c cs =>
      have hpre : listHasPre (c :: cs) ((c :: cs) ++ ys) = true :=
        listHasPre_append_self (c :: cs) ys
      have hdrop : ((c :: cs) ++ ys).drop (c :: cs).length = ys :=
        List.drop_left (c :: cs) ys
      rw [hse] at hsep
      simp only [List.nil_append]
      rw [show (c :: cs) ++ ys = c :: (cs ++ ys) from rfl] at hpre hdrop ⊢
      rw [Codec.splitAllSub]
      rw [dif_pos ⟨hsep, hpre⟩, hdrop]
  | cons x xs2 ih =>
    intro ys hne
    simp only [Codec.noEarly, Bool.and_eq_true, Bool.not_eq_true'] at hne
    obtain ⟨hhd, htl⟩ := hne
    have hrec := ih ys htl
    rw [show (x :: xs2) ++ (sep ++ ys) = x :: (xs2 ++ (sep ++ ys)) from rfl]
    rw [Codec.splitAllSub]
    have hcond : ¬(sep.isEmpty = false ∧
        listHasPre sep (x :: (xs2 ++ (sep ++ ys))) = true) := by
      intro hc
      rw [show x :: (xs2 ++ (sep ++ ys)) = (x :: xs2) ++ (sep ++ ys) from rfl] at hc
      simp only [List.cons_append] at hc hhd
      rw [hhd] at hc
      exact absurd hc.2 (by simp)
    rw [dif_neg hcond, hrec]

/-- Helper for C9: a list free of the separator is returned whole by
the JS split. -/
theorem splitAllSub_of_not_sub (sep : List Char) :
    ∀ l : List Char, listHasSub sep l = false →
    Codec.splitAllSub sep l = [l] := by
  intro l
  induction l with
  | nil => intro _; rw [Codec.splitAllSub]
  | cons c cs ih =>
    intro h
    simp only [listHasSub, Bool.or_eq_false_iff] at h
    rw [Codec.splitAllSub]
    have hcond : ¬(sep.isEmpty = false ∧ listHasPre sep (c :: cs) = true) := by
      intro hc
      rw [h.1] at hc
      exact absurd hc.2 (by simp)
    rw [dif_neg hcond, ih h.2]


/-- Helper for C9: trimming a body wrapped between the delimiter
newlines recovers a trim-stable content. -/
theorem jsTrim_newline_wrap (content : String)
    (hlead : content.data.dropWhile Sync.isSpaceJs = content.data)
    (htrail : content.data.reverse.dropWhile Sync.isSpaceJs = content.data.reverse) :
    Codec.jsTrim (String.mk ('\n' :: content.data)) = content ∧
    Codec.jsTrim (String.mk ('\n' :: content.data ++ ['\n'])) = content := by
  have hwsnl : Sync.isSpaceJs '\n' = true := by decide
  have heta : String.mk content.data = content := rfl
  constructor
  · unfold Codec.jsTrim
    dsimp only
    rw [List.dropWhile_cons_of_pos hwsnl, hlead, htrail, List.reverse_reverse, heta]
  · unfold Codec.jsTrim
    cases hcd : content.data with
    | nil =>
      have hcmk : content = String.mk ([] : List Char) := by
        conv_lhs => rw [← heta]
        rw [hcd]
      rw [hcmk]
      rfl
    | cons c0 rest =>
      have hc0 : Sync.isSpaceJs c0 = false := by
        cases hws : Sync.isSpaceJs c0
        · rfl
        · exfalso
          rw [hcd, List.dropWhile_cons_of_pos hws] at hlead
          have hlen := (List.dropWhile_sublist (p := Sync.isSpaceJs) (l := rest)).length_le
          rw [hlead] at hlen
          simp at hlen
      dsimp only
      rw [List.cons_append, List.dropWhile_cons_of_pos hwsnl]
      rw [List.cons_append, List.dropWhile_cons_of_neg (by simp [hc0])]
      rw [← List.cons_append, List.reverse_append]
      rw [show (['\n'] : List Char).reverse ++ (c0 :: rest).reverse =
        '\n' :: (c0 :: rest).reverse from rfl]
      rw [List.dropWhile_cons_of_pos hwsnl]
      rw [← hcd, htrail, List.reverse_reverse, heta]

/-- The body of the generated file after the frontmatter closing
delimiter (a derived decomposition of generateFile's output, used to
phrase the junction side conditions of the round trip): a leading
newline, the main content, and when comments exist the blank line,
the separator line and the dumped comments. -/
def Codec.postMatter {FM C : Type} (io : Codec.YamlIO FM C) (content : String)
    (comments : List C) : List Char :=
  if comments.length > 0 then
    (('\n' :: content.data) ++ ['\n']) ++ (Codec.commentsSep ++ (io.dumpComments comments).data)
  else '\n' :: content.data

/-- Helper for C9: byte-level decomposition of generateFile's output
when the dumped frontmatter ends in a newline. -/
theorem generateFile_data {FM C : Type} (io : Codec.YamlIO FM C) (fm : FM)
    (content : String) (comments : List C) (fbCore : List Char)
    (hfb : (io.dumpFM fm).data = fbCore ++ ['\n']) :
    (Codec.generateFile io fm content comments).data =
      "---\n".data ++ (fbCore ++ (Codec.matterSep ++ Codec.postMatter io content comments)) := by
  cases comments with
  | nil =>
    simp only [Codec.generateFile, Codec.postMatter, List.length_nil, gt_iff_lt,
      Nat.lt_irrefl, if_false, String.data_append, hfb, List.append_assoc]
    rfl
  | cons c cs =>
    simp only [Codec.generateFile, Codec.postMatter, List.length_cons, gt_iff_lt,
      Nat.succ_pos, if_true, String.data_append, hfb, List.append_assoc]
    rfl

/-- Helper for C9: gray-matter recovers the dumped frontmatter block
and the body when the dump is newline-terminated and no closing
delimiter occurrence starts inside it. -/
theorem matterParse_generateFile {FM C : Type} (io : Codec.YamlIO FM C) (fm : FM)
    (content : String) (comments : List C) (fbCore : List Char)
    (hfb : (io.dumpFM fm).data = fbCore ++ ['\n'])
    (hnoe : Codec.noEarly Codec.matterSep fbCore
      (Codec.matterSep ++ Codec.postMatter io content comments) = true) :
    Codec.matterParse io (Codec.generateFile io fm content comments) =
      (io.loadFM (String.mk fbCore), String.mk (Codec.postMatter io content comments)) := by
  have hd := generateFile_data io fm content comments fbCore hfb
  have hpre : strStartsWith (Codec.generateFile io fm content comments) "---\n" = true := by
    unfold strStartsWith
    rw [hd]
    exact listHasPre_append_self "---\n".data _
  have hdrop : (Codec.generateFile io fm content comments).data.drop 4 =
      fbCore ++ (Codec.matterSep ++ Codec.postMatter io content comments) := by
    rw [hd]
    exact List.drop_left "---\n".data _
  have hsp := splitFirstSub_junction Codec.matterSep (by decide) fbCore
    (Codec.postMatter io content comments) hnoe
  unfold Codec.matterParse
  rw [if_pos hpre, hdrop, hsp]

/-- C9: the codec round trip parseFile (generateFile t) reproduces
the semantic fields of t — corrected: it is stable only under side
conditions on the ticket and the yaml library: the dumped frontmatter
is newline-terminated, contains no closing-delimiter line and loads
back to the same value; the main content is trim-stable and, together
with the generated body, free of stray comments-separator lines; and
the dumped comments trim nonempty, contain no separator line and load
back to the same list.  Content containing the separator line, or
content with leading/trailing whitespace, breaks the round trip (see
the counterexample). -/
theorem C9_roundtrip_amended {FM C : Type} (io : Codec.YamlIO FM C) (fm : FM)
    (content : String) (comments : List C) (fbCore : List Char)
    (hfb : (io.dumpFM fm).data = fbCore ++ ['\n'])
    (hload : io.loadFM (String.mk fbCore) = fm)
    (hlead : content.data.dropWhile Sync.isSpaceJs = content.data)
    (htrail : content.data.reverse.dropWhile Sync.isSpaceJs = content.data.reverse)
    (hnoe : Codec.noEarly Codec.matterSep fbCore
      (Codec.matterSep ++ Codec.postMatter io content comments) = true)
    (hcontfree : comments = [] →
      listHasSub Codec.commentsSep ('\n' :: content.data) = false)
    (hnoeC : comments ≠ [] → Codec.noEarly Codec.commentsSep
      (('\n' :: content.data) ++ ['\n'])
      (Codec.commentsSep ++ (io.dumpComments comments).data) = true)
    (hcdfree : comments ≠ [] →
      listHasSub Codec.commentsSep (io.dumpComments comments).data = false)
    (htne : comments ≠ [] →
      (Codec.jsTrim (io.dumpComments comments) == "") = false)
    (hloadC : comments ≠ [] →
      io.loadComments (Codec.jsTrim (io.dumpComments comments)) = some comments) :
    Codec.parseFile io (Codec.generateFile io fm content comments) =
      (fm, content, comments) := by
  have hmp := matterParse_generateFile io fm content comments fbCore hfb hnoe
  have hwrap := jsTrim_newline_wrap content hlead htrail
  cases comments with
  | nil =>
    have hfree := hcontfree rfl
    have hpm : Codec.postMatter io content ([] : List C) = '\n' :: content.data := rfl
    rw [hpm] at hmp
    have hsplit : Codec.splitAllSub Codec.commentsSep
        (String.mk ('\n' :: content.data)).data = ['\n' :: content.data] :=
      splitAllSub_of_not_sub Codec.commentsSep ('\n' :: content.data) hfree
    simp only [Codec.parseFile]
    rw [hmp, hload]
    dsimp only
    rw [hsplit]
    dsimp only [List.getD, List.get?, Option.getD]
    rw [hwrap.1]
  | cons c cs =>
    have hne : (c :: cs : List C) ≠ [] := by simp
    have hpm : Codec.postMatter io content (c :: cs) =
        ((('\n' :: content.data) ++ ['\n']) ++
          (Codec.commentsSep ++ (io.dumpComments (c :: cs)).data)) := by
      unfold Codec.postMatter
      rw [if_pos (by simp)]
    rw [hpm] at hmp
    have hjunc : Codec.splitAllSub Codec.commentsSep
        (String.mk ((('\n' :: content.data) ++ ['\n']) ++
          (Codec.commentsSep ++ (io.dumpComments (c :: cs)).data))).data =
        (('\n' :: content.data) ++ ['\n']) ::
          Codec.splitAllSub Codec.commentsSep (io.dumpComments (c :: cs)).data :=
      splitAllSub_junction Codec.commentsSep (by decide)
        (('\n' :: content.data) ++ ['\n']) (io.dumpComments (c :: cs)).data (hnoeC hne)
    have hrest := splitAllSub_of_not_sub Codec.commentsSep
      (io.dumpComments (c :: cs)).data (hcdfree hne)
    have ht : (Codec.jsTrim (String.mk (io.dumpComments (c :: cs)).data) == "") = false :=
      htne hne
    have hlc : io.loadComments (Codec.jsTrim (String.mk (io.dumpComments (c :: cs)).data)) =
        some (c :: cs) := hloadC hne
    simp only [Codec.parseFile]
    rw [hmp, hload]
    dsimp only
    rw [hjunc, hrest]
    dsimp only [List.getD, List.get?, Option.getD]
    rw [hwrap.2, ht]
    simp only [Bool.false_eq_true, if_false]
    rw [hlc]

/-- A concrete frontmatter record for evaluating the codec (stands
for the parsed-object view of a two-key yaml mapping). -/
structure DemoMeta where
  id : String
  title : String
deriving DecidableEq

/-- Split a character list at every newline (single-character
separator, structurally recursive so it evaluates in the kernel). -/
def demoLines : List Char → List (List Char)
  | [] => [[]]
  | c :: cs =>
    if c = '\n' then [] :: demoLines cs
    else
      match demoLines cs with
      | [] => [[c]]
      | a :: rest => (c :: a) :: rest

/-- First line starting with the given key, with the key removed. -/
def demoLookup (key : List Char) : List (List Char) → List Char
  | [] => []
  | l :: ls => if listHasPre key l then l.drop key.length else demoLookup key ls

/-- Dump the two-key mapping as sorted yaml lines. -/
def dumpFMDemo (m : DemoMeta) : String :=
  "id: " ++ m.id ++ "\ntitle: " ++ m.title ++ "\n"

/-- Load the two-key mapping back from yaml lines. -/
def loadFMDemo (s : String) : DemoMeta :=
  { id := String.mk (demoLookup "id: ".data (demoLines s.data)),
    title := String.mk (demoLookup "title: ".data (demoLines s.data)) }

/-- Dump a string list as a yaml block sequence. -/
def dumpCDemo (cs : List String) : String :=
  String.mk (cs.flatMap (fun c => ("- " ++ c ++ "\n").data))

/-- Load a yaml block sequence of strings; none when a line is not a
sequence item (js-yaml would not produce an array). -/
def loadCDemo (s : String) : Option (List String) :=
  if (demoLines s.data).all (fun l => listHasPre "- ".data l) then
    some ((demoLines s.data).map (fun l => String.mk (l.drop 2)))
  else none

/-- The concrete yaml instance for evaluating parseFile/generateFile. -/
def demoIO : Codec.YamlIO DemoMeta String :=
  { dumpFM := dumpFMDemo, loadFM := loadFMDemo, emptyFM := ⟨"", ""⟩,
    dumpComments := dumpCDemo, loadComments := loadCDemo }

/-- A well-behaved ticket: trim-stable content, no separator lines. -/
def demoFm : DemoMeta := { id := "PAP-7", title := "Fix parser" }

/-- Main content of the well-behaved ticket. -/
def demoContent : String := "Body text"

/-- Comments of the well-behaved ticket. -/
def demoComments : List String := ["hello"]

/-- The dumped frontmatter of demoFm without its final newline. -/
def demoFbCore : List Char := "id: PAP-7\ntitle: Fix parser".data

/-- A content value containing the comments-separator line. -/
def c9BadContent : String := "Intro\n---comments---\nTail"

/-- C9 counterexample: a ticket whose content contains the separator
line "---comments---" on its own line, and no comments.  The
generated file is parsed back with main content "Intro" instead of
the original three-line content: the split at the separator truncates
it, so the round trip is not stable for every ticket. -/
theorem C9_counterexample :
    (Codec.parseFile demoIO (Codec.generateFile demoIO demoFm c9BadContent [])).2.1 ≠
      c9BadContent := by
  have hmp := matterParse_generateFile demoIO demoFm c9BadContent ([] : List String)
    demoFbCore (by decide) (by decide)
  have heq : Codec.postMatter demoIO c9BadContent ([] : List String) =
      ('\n' :: "Intro".data) ++ (Codec.commentsSep ++ "Tail".data) := by decide
  rw [heq] at hmp
  have hjunc : Codec.splitAllSub Codec.commentsSep
      (String.mk (('\n' :: "Intro".data) ++ (Codec.commentsSep ++ "Tail".data))).data =
      ('\n' :: "Intro".data) :: Codec.splitAllSub Codec.commentsSep "Tail".data :=
    splitAllSub_junction Codec.commentsSep (by decide) ('\n' :: "Intro".data)
      "Tail".data (by decide)
  have hrest : Codec.splitAllSub Codec.commentsSep "Tail".data = ["Tail".data] :=
    splitAllSub_of_not_sub Codec.commentsSep "Tail".data (by decide)
  simp only [Codec.parseFile]
  rw [hmp]
  dsimp only
  rw [hjunc, hrest]
  decide

/-- Witness for C9: the round trip applied at the concrete yaml
instance and the well-behaved ticket reproduces all three semantic
fields. -/
theorem C9_roundtrip_amended_witness :
    Codec.parseFile demoIO (Codec.generateFile demoIO demoFm demoContent demoComments) =
      (demoFm, demoContent, demoComments) :=
  C9_roundtrip_amended demoIO demoFm demoContent demoComments demoFbCore
    (by decide) (by decide) (by decide) (by decide) (by decide)
    (fun h => absurd h (by decide))
    (fun _ => by decide) (fun _ => by decide) (fun _ => by decide) (fun _ => by decide)
